import Mathlib

/-!
Verification development for the llm-guardr41l core: the diff engine,
rule evaluation engine and rule-configuration resolver found in
src/diff-validator.ts, src/rules.ts and src/core/rules-loader.ts.
The TypeScript sources are shallowly embedded below; theorems at the end
of the file settle the behavioural claims about them.
-/

namespace Guardrail

/-! ## JavaScript string primitives used by the sources -/

/-- Whitespace characters recognised by the JavaScript regex class used in
the sources (ASCII portion, which is all that the fixed patterns rely on). -/
def isJsWs (c : Char) : Bool :=
  c = ' ' || c = '\t' || c = '\n' || c = '\r' || c = '\x0b' || c = '\x0c'

/-- Word characters, the JavaScript regex class used by the fixed patterns. -/
def isWordChar (c : Char) : Bool :=
  ('a' ≤ c && c ≤ 'z') || ('A' ≤ c && c ≤ 'Z') || ('0' ≤ c && c ≤ '9') || c = '_'

/-- Substring occurrence on character lists; JavaScript semantics
(the empty needle occurs in every string). -/
def occursIn (needle : List Char) : List Char → Bool
  | [] => needle.isEmpty
  | s@(_ :: rest) => needle.isPrefixOf s || occursIn needle rest

/-- JavaScript String.prototype.includes. -/
def jsIncludes (s sub : String) : Bool := occursIn sub.data s.data

/-- JavaScript truthiness of a string: the empty string is falsy. -/
def jsNonempty (s : String) : Bool := !(s = "")

/-- JavaScript String.prototype.startsWith. -/
def jsStartsWith (s pre : String) : Bool := pre.data.isPrefixOf s.data

/-- JavaScript String.prototype.toLowerCase (ASCII behaviour). -/
def jsToLower (s : String) : String := String.mk (s.data.map Char.toLower)

/-- JavaScript Array.prototype.join. -/
def jsJoin (sep : String) : List String → String
  | [] => ""
  | x :: rest => rest.foldl (fun acc y => acc ++ sep ++ y) x

/-- Number of newline characters in a string, matching the count of
global matches of a newline regex in the sources. -/
def countNl (s : String) : Nat := (s.data.filter (fun c => c = '\n')).length

/-- Whether a string ends with a newline character. -/
def endsWithNl (s : String) : Bool :=
  match s.data.getLast? with
  | some c => c = '\n'
  | none => false

/-! ## Diff engine (src/diff-validator.ts) -/

/-- Shape of a change object produced by the external line-diff library,
as consumed by computeDiff: an added/removed flag pair and the joined text. -/
structure RawChange where
  added : Bool
  removed : Bool
  value : String
deriving DecidableEq, Repr

/-- One element of a line-level edit script. -/
inductive Edit where
  | keep (s : String)
  | del (s : String)
  | ins (s : String)
deriving DecidableEq, Repr

/-- Number of non-keep elements of an edit script. -/
def editCost (l : List Edit) : Nat :=
  (l.filter fun e => match e with | Edit.keep _ => false | _ => true).length

/-- Modelled from the spec: the external npm diff library's line tokenizer
is not part of this repository's sources.  Lines retain their trailing
newline; a trailing empty token is not produced; the empty string has no
tokens. -/
def lineTokensAux : List Char → List Char → List (List Char)
  | acc, [] => if acc.isEmpty then [] else [acc.reverse]
  | acc, c :: rest =>
    if c = '\n' then ((c :: acc).reverse) :: lineTokensAux [] rest
    else lineTokensAux (c :: acc) rest

/-- Line tokens of a string (see lineTokensAux). -/
def lineTokens (s : String) : List String :=
  (lineTokensAux [] s.data).map (fun l => String.mk l)

/-- Modelled from the spec: the external npm diff library's diff algorithm
is not part of this repository's sources.  The spec requires a minimal
edit distance / LCS-based line diff; this is the textbook recursion, with
deletions preferred before insertions on ties.  The fuel argument makes
the recursion structural; each recursive step shrinks the combined length
by at least one, so fuel equal to the combined length never runs out
(the zero-fuel arm is unreachable). -/
def diffScriptGo : Nat → List String → List String → List Edit
  | _, [], ys => ys.map Edit.ins
  | _, x :: xs, [] => (x :: xs).map Edit.del
  | 0, _, _ => []
  | fuel + 1, x :: xs, y :: ys =>
    if x = y then Edit.keep x :: diffScriptGo fuel xs ys
    else
      let d := Edit.del x :: diffScriptGo fuel xs (y :: ys)
      let i := Edit.ins y :: diffScriptGo fuel (x :: xs) ys
      if editCost d ≤ editCost i then d else i

/-- The edit script between two token lists (see diffScriptGo). -/
def diffScript (xs ys : List String) : List Edit :=
  diffScriptGo (xs.length + ys.length) xs ys

/-- Convert one edit to the library's change-object shape. -/
def editToRaw : Edit → RawChange
  | Edit.keep s => ⟨false, false, s⟩
  | Edit.del s => ⟨false, true, s⟩
  | Edit.ins s => ⟨true, false, s⟩

/-- Merge maximal contiguous runs of equally-classified changes,
concatenating their text, as the library's output groups lines. -/
def groupRaw : List RawChange → List RawChange
  | [] => []
  | c :: rest =>
    match groupRaw rest with
    | [] => [c]
    | d :: ds =>
      if c.added = d.added && c.removed = d.removed then
        ⟨c.added, c.removed, c.value ++ d.value⟩ :: ds
      else c :: d :: ds

/-- Modelled from the spec: Diff.diffLines from the npm diff package is an
external dependency, absent from src/.  Per the spec it is a standard
LCS-based line diff grouped into maximal contiguous runs, and identical
inputs yield a single unchanged group (the real library short-circuits
equal inputs the same way). -/
def diffLines (original generated : String) : List RawChange :=
  if original = generated then [⟨false, false, original⟩]
  else groupRaw ((diffScript (lineTokens original) (lineTokens generated)).map editToRaw)

/-- Kind tag of a diff group (field type of DiffChange in the source). -/
inductive ChangeType where
  | added
  | removed
  | unchanged
deriving DecidableEq, Repr

/-- DiffChange from src/diff-validator.ts. -/
structure DiffChange where
  type : ChangeType
  value : String
  lineNumber : Option Nat
  count : Option Nat
deriving DecidableEq, Repr

/-- DiffResult from src/diff-validator.ts. -/
structure DiffResult where
  changes : List DiffChange
  linesAdded : Nat
  linesRemoved : Nat
  totalLinesChanged : Nat
deriving DecidableEq, Repr

/-- Line count of a change value as computed in computeDiff:
newline count, plus one unless the value ends with a newline. -/
def lineCountOf (v : String) : Nat :=
  countNl v + (if endsWithNl v then 0 else 1)

/-- Loop body of computeDiff: walk the library's changes keeping a cursor
(currentLine, initialised to 1) and the added/removed line tallies. -/
def computeDiffGo : List RawChange → Nat → List DiffChange × Nat × Nat
  | [], _ => ([], 0, 0)
  | ch :: rest, currentLine =>
    let lineCount := lineCountOf ch.value
    if ch.added then
      let p := computeDiffGo rest (currentLine + lineCount)
      (⟨ChangeType.added, ch.value, some currentLine, some lineCount⟩ :: p.1,
       p.2.1 + lineCount, p.2.2)
    else if ch.removed then
      let p := computeDiffGo rest currentLine
      (⟨ChangeType.removed, ch.value, some currentLine, some lineCount⟩ :: p.1,
       p.2.1, p.2.2 + lineCount)
    else
      let p := computeDiffGo rest (currentLine + lineCount)
      (⟨ChangeType.unchanged, ch.value, some currentLine, some lineCount⟩ :: p.1,
       p.2.1, p.2.2)

/-- computeDiff from src/diff-validator.ts. -/
def computeDiff (original generated : String) : DiffResult :=
  let p := computeDiffGo (diffLines original generated) 1
  ⟨p.1, p.2.1, p.2.2, p.2.1 + p.2.2⟩

/-- JavaScript (change.count OR 1): zero and undefined are both falsy. -/
def jsCountOr1 : Option Nat → Nat
  | some c => if c = 0 then 1 else c
  | none => 1

/-- The covered line numbers of one added change, lineNumber + i for
i below the count, as pushed by getChangedLineNumbers. -/
def rangeFrom (start cnt : Nat) : List Nat :=
  (List.range cnt).map (fun i => start + i)

/-- getChangedLineNumbers from src/diff-validator.ts. -/
def getChangedLineNumbers (diff : DiffResult) : List Nat :=
  let lineNumbers := diff.changes.foldl
    (fun acc ch =>
      match ch.type, ch.lineNumber with
      | ChangeType.added, some ln => acc ++ rangeFrom ln (jsCountOr1 ch.count)
      | _, _ => acc) []
  if lineNumbers.length > 0 then lineNumbers else [1]

/-! ## A small matcher for the fixed regex literals of the sources

The sources use a handful of fixed regex literals (import extraction,
identifier extraction, error-handling and comment idioms) built from
literals, character classes, greedy and lazy class quantifiers, a single
capturing class-plus group, and an alternation of literals.  The matcher
below implements exactly that fragment with JavaScript priority order:
leftmost match start, alternatives left to right, greedy longest-first
and lazy shortest-first. -/

/-- Character classes occurring in the fixed patterns. -/
inductive CharCls where
  | ws
  | nonws
  | word
  | notNl
  | anyc
  | oneOf (cs : List Char)
  | noneOf (cs : List Char)
deriving Repr

/-- Membership test of a character class. -/
def CharCls.test : CharCls → Char → Bool
  | CharCls.ws, c => isJsWs c
  | CharCls.nonws, c => !(isJsWs c)
  | CharCls.word, c => isWordChar c
  | CharCls.notNl, c => !(c = '\n' || c = '\r')
  | CharCls.anyc, _ => true
  | CharCls.oneOf cs, c => cs.contains c
  | CharCls.noneOf cs, c => !(cs.contains c)

/-- One element of a fixed pattern. -/
inductive RItem where
  | lit (s : List Char)
  | litCI (s : List Char)
  | one (c : CharCls)
  | star (lazy : Bool) (c : CharCls)
  | plus (c : CharCls)
  | cap (c : CharCls)
  | alt (ss : List (List Char))
deriving Repr

/-- Case-insensitive character equality (ASCII, as the /i flag is only
used on ASCII literals in the sources). -/
def lowerEq (a b : Char) : Bool := a.toLower = b.toLower

/-- Case-insensitive list-prefix test. -/
def ciIsPrefixOf : List Char → List Char → Bool
  | [], _ => true
  | _ :: _, [] => false
  | a :: as, b :: bs => lowerEq a b && ciIsPrefixOf as bs

/-- Length of the maximal prefix of s inside the class. -/
def clsRun (c : CharCls) (s : List Char) : Nat := (s.takeWhile c.test).length

/-- The list n, n-1, ..., 0 (greedy exploration order). -/
def downFrom : Nat → List Nat
  | 0 => [0]
  | n + 1 => (n + 1) :: downFrom n

/-- The list 0, 1, ..., n (lazy exploration order). -/
def upTo (n : Nat) : List Nat := List.range (n + 1)

/-- Candidate consumptions of one item on a suffix, in JavaScript priority
order, each paired with the characters it captures. -/
def itemCands : RItem → List Char → List (Nat × List Char)
  | RItem.lit l, s => if l.isPrefixOf s then [(l.length, [])] else []
  | RItem.litCI l, s => if ciIsPrefixOf l s then [(l.length, [])] else []
  | RItem.one c, s =>
    match s with
    | [] => []
    | ch :: _ => if c.test ch then [(1, [])] else []
  | RItem.star lz c, s =>
    let r := clsRun c s
    (if lz then upTo r else downFrom r).map (fun k => (k, []))
  | RItem.plus c, s =>
    let r := clsRun c s
    ((downFrom r).filter (fun k => !(k = 0))).map (fun k => (k, []))
  | RItem.cap c, s =>
    let r := clsRun c s
    ((downFrom r).filter (fun k => !(k = 0))).map (fun k => (k, s.take k))
  | RItem.alt ss, s =>
    ss.filterMap (fun l => if l.isPrefixOf s then some (l.length, []) else none)

/-- Backtracking match of a pattern at the start of a suffix; returns the
number of consumed characters and the capture of the highest-priority
full match. -/
def mItems : List RItem → List Char → Option (Nat × List Char)
  | [], _ => some (0, [])
  | it :: rest, s =>
    (itemCands it s).findSome? fun kc =>
      (mItems rest (s.drop kc.1)).map fun kc2 => (kc.1 + kc2.1, kc.2 ++ kc2.2)

/-- Leftmost match of a pattern in a text: the matched text, the capture
and the remaining suffix after the match. -/
def scanFrom (items : List RItem) : List Char → Option (List Char × List Char × List Char)
  | [] => (mItems items []).map fun kc => ([], kc.2, [])
  | s@(_ :: t) =>
    match mItems items s with
    | some kc => some (s.take kc.1, kc.2, s.drop kc.1)
    | none => scanFrom items t

/-- JavaScript RegExp.prototype.test for a fixed pattern. -/
def regexTest (items : List RItem) (s : String) : Bool :=
  (scanFrom items s.data).isSome

/-- JavaScript String.prototype.match with a non-global fixed pattern with
no capture groups: null, or a one-element array holding the match. -/
def matchOnce (items : List RItem) (s : String) : Option (List String) :=
  (scanFrom items s.data).map (fun r => [String.mk r.1])

/-- Captures of successive exec calls of a global fixed pattern, resuming
after each match (fuelled; every fixed pattern consumes at least one
character per match, so the fuel is never the limiting factor). -/
def execCaps (items : List RItem) : Nat → List Char → List (List Char)
  | 0, _ => []
  | fuel + 1, s =>
    match scanFrom items s with
    | none => []
    | some r => r.2.1 :: execCaps items fuel r.2.2

/-- All captures of a global fixed pattern over a string. -/
def execAll (items : List RItem) (s : String) : List String :=
  (execCaps items (s.data.length + 1) s.data).map (fun l => String.mk l)

/-! ## The fixed patterns of src/diff-validator.ts -/

/-- A quote character, the class matching a single or double quote. -/
def quoteCls : CharCls := CharCls.oneOf ['\x27', '\x22']

/-- The class excluding both quote characters. -/
def noQuoteCls : CharCls := CharCls.noneOf ['\x27', '\x22']

/-- ES6 import pattern of validateDependenciesRule. -/
def importPatES6 : List RItem :=
  [RItem.lit "import".toList, RItem.plus CharCls.ws, RItem.star true CharCls.notNl,
   RItem.plus CharCls.ws, RItem.lit "from".toList, RItem.plus CharCls.ws,
   RItem.one quoteCls, RItem.cap noQuoteCls, RItem.one quoteCls]

/-- CommonJS require pattern of validateDependenciesRule. -/
def importPatRequire : List RItem :=
  [RItem.lit "require".toList, RItem.star false CharCls.ws, RItem.lit "(".toList,
   RItem.star false CharCls.ws, RItem.one quoteCls, RItem.cap noQuoteCls,
   RItem.one quoteCls, RItem.star false CharCls.ws, RItem.lit ")".toList]

/-- Python from-import pattern of validateDependenciesRule. -/
def importPatPython : List RItem :=
  [RItem.lit "from".toList, RItem.plus CharCls.ws, RItem.cap CharCls.nonws,
   RItem.plus CharCls.ws, RItem.lit "import".toList]

/-- Simple import pattern of validateDependenciesRule. -/
def importPatSimple : List RItem :=
  [RItem.lit "import".toList, RItem.plus CharCls.ws, RItem.cap CharCls.nonws]

/-- The import patterns, in the order the source tries them. -/
def importPatterns : List (List RItem) :=
  [importPatES6, importPatRequire, importPatPython, importPatSimple]

/-- Identifier-extraction patterns of extractVariableNames. -/
def variableNamePatterns : List (List RItem) :=
  [[RItem.alt ["const".toList, "let".toList, "var".toList], RItem.plus CharCls.ws,
    RItem.cap CharCls.word],
   [RItem.cap CharCls.word, RItem.star false CharCls.ws, RItem.lit "=".toList],
   [RItem.lit "function".toList, RItem.plus CharCls.ws, RItem.cap CharCls.word]]

/-- Identifier-extraction patterns of extractFunctionNames. -/
def functionNamePatterns : List (List RItem) :=
  [[RItem.lit "function".toList, RItem.plus CharCls.ws, RItem.cap CharCls.word],
   [RItem.cap CharCls.word, RItem.star false CharCls.ws, RItem.lit ":".toList,
    RItem.star false CharCls.ws, RItem.lit "function".toList],
   [RItem.cap CharCls.word, RItem.star false CharCls.ws, RItem.lit "=".toList,
    RItem.star false CharCls.ws, RItem.lit "function".toList],
   [RItem.cap CharCls.word, RItem.star false CharCls.ws, RItem.lit "=".toList,
    RItem.star false CharCls.ws, RItem.lit "(".toList],
   [RItem.cap CharCls.word, RItem.star false CharCls.ws, RItem.lit "=".toList,
    RItem.star false CharCls.ws, RItem.lit "async".toList, RItem.star false CharCls.ws,
    RItem.lit "(".toList],
   [RItem.lit "def".toList, RItem.plus CharCls.ws, RItem.cap CharCls.word],
   [RItem.cap CharCls.word, RItem.star false CharCls.ws, RItem.lit "(".toList,
    RItem.star false (CharCls.noneOf [')']), RItem.lit ")".toList,
    RItem.star false CharCls.ws, RItem.lit "\x7b".toList]]

/-- Error-handling idiom patterns of validateRefactorRule. -/
def errorPatterns : List (List RItem) :=
  [[RItem.lit "try".toList, RItem.star false CharCls.ws, RItem.lit "\x7b".toList],
   [RItem.lit "catch".toList, RItem.star false CharCls.ws, RItem.lit "(".toList],
   [RItem.lit ".catch(".toList],
   [RItem.lit "throw".toList, RItem.plus CharCls.ws, RItem.lit "new".toList],
   [RItem.litCI "if".toList, RItem.star false CharCls.ws, RItem.lit "(".toList,
    RItem.star false (CharCls.noneOf [')']), RItem.litCI "error".toList]]

/-- Comment-syntax patterns of validateRefactorRule. -/
def commentPatterns : List (List RItem) :=
  [[RItem.lit "//".toList, RItem.plus (CharCls.noneOf ['\n'])],
   [RItem.lit "/*".toList, RItem.star true CharCls.anyc, RItem.lit "*/".toList],
   [RItem.lit "#".toList, RItem.plus (CharCls.noneOf ['\n'])]]

/-! ## Identifier and import extraction (src/diff-validator.ts helpers) -/

/-- Append x to l unless already present (the includes-guarded push of the
extraction loops). -/
def dedupPush (l : List String) (x : String) : List String :=
  if l.contains x then l else l ++ [x]

/-- extractVariableNames from src/diff-validator.ts. -/
def extractVariableNames (code : String) : List String :=
  variableNamePatterns.foldl
    (fun acc pat =>
      (execAll pat code).foldl
        (fun acc2 n => if jsNonempty n && !(acc2.contains n) then acc2 ++ [n] else acc2)
        acc)
    []

/-- extractFunctionNames from src/diff-validator.ts. -/
def extractFunctionNames (code : String) : List String :=
  functionNamePatterns.foldl
    (fun acc pat =>
      (execAll pat code).foldl
        (fun acc2 n =>
          if jsNonempty n && !(acc2.contains n)
              && !(n = "if") && !(n = "while") && !(n = "for") then
            acc2 ++ [n]
          else acc2)
        acc)
    []

/-- First path segment: everything before the first slash. -/
def firstSegment (s : String) : String :=
  String.mk (s.data.takeWhile (fun c => !(c = '/')))

/-- Drop one leading at-sign (the scope-marker strip of the source). -/
def stripAtSign (s : String) : String :=
  match s.data with
  | '@' :: rest => String.mk rest
  | _ => s

/-- Post-processing of one raw import capture in validateDependenciesRule:
first path segment, then strip a leading at-sign. -/
def processImportName (s : String) : String := stripAtSign (firstSegment s)

/-- The newImports list of validateDependenciesRule: captures of each of
the import patterns over the added content, post-processed and
de-duplicated in encounter order. -/
def extractNewImports (addedContent : String) : List String :=
  importPatterns.foldl
    (fun acc pat =>
      (execAll pat addedContent).foldl
        (fun acc2 c => dedupPush acc2 (processImportName c))
        acc)
    []

/-! ## Rule model (src/rules.ts) -/

/-- The allow/deny pattern lists of a content rule. -/
structure ContentPatterns where
  allow : Option (List String)
  deny : Option (List String)
deriving DecidableEq, Repr

/-- Rule from src/rules.ts: the five-way tagged union discriminated by
the type field. -/
inductive Rule where
  | scope (description : String) (pattern : Option String)
      (files : Option (List String)) (functions : Option (List String))
  | refactor (description : Option String) (forbid : List String)
  | dependencies (description : Option String)
      (allowed : Option (List String)) (forbidden : Option (List String))
  | content (description : Option String) (require : Option String)
      (forbid : Option (List String)) (patterns : Option ContentPatterns)
  | threshold (description : Option String) (max_lines_changed : Option Nat)
      (max_files_changed : Option Nat) (require_approval : Bool)
deriving DecidableEq, Repr

/-- The discriminant string of a rule (its type field). -/
def Rule.type : Rule → String
  | Rule.scope .. => "scope"
  | Rule.refactor .. => "refactor"
  | Rule.dependencies .. => "dependencies"
  | Rule.content .. => "content"
  | Rule.threshold .. => "threshold"

/-- The description field of a rule (required on scope, optional elsewhere). -/
def Rule.descriptionField : Rule → Option String
  | Rule.scope d _ _ _ => some d
  | Rule.refactor d _ => d
  | Rule.dependencies d _ _ => d
  | Rule.content d _ _ _ => d
  | Rule.threshold d _ _ _ => d

/-- GlobalSettings of a RulesConfig; every field optional in the document. -/
structure GlobalCfg where
  require_approval_for_all : Option Bool
  log_all_interactions : Option Bool
  strict_mode : Option Bool
deriving DecidableEq, Repr

/-- RulesConfig from src/rules.ts. -/
structure RulesConfig where
  rules : List Rule
  global : Option GlobalCfg
deriving DecidableEq, Repr

/-- DEFAULT_RULES from src/rules.ts. -/
def DEFAULT_RULES : RulesConfig :=
  ⟨[], some ⟨some true, some true, some false⟩⟩

/-- Severity of a violation. -/
inductive Severity where
  | error
  | warning
deriving DecidableEq, Repr

/-- Violation from src/diff-validator.ts. -/
structure Violation where
  rule : Rule
  ruleType : String
  description : String
  severity : Severity
  details : Option String
  lineNumbers : Option (List Nat)
deriving DecidableEq, Repr

/-- ValidationResult from src/diff-validator.ts. -/
structure ValidationResult where
  valid : Bool
  violations : List Violation
  diff : DiffResult
  requiresApproval : Bool
deriving DecidableEq, Repr

/-! ## Dynamic regexes

The sources compile four kinds of regexes from run-time strings (file
glob patterns, function-name scope patterns, a scope rule's pattern
field, and content patternsDeny entries).  A full JavaScript regex
engine is out of scope of a shallow embedding, so these four compiled
forms are abstracted as an engine parameter; every theorem below holds
for an arbitrary engine.  The patternsDeny compilation returns an Option
so that a pattern whose compilation fails (the try/catch of the source)
is representable; the other three sites have no try/catch in the source,
so the embedding models the runs in which their patterns compile. -/
structure RegexEngine where
  globTest : String → String → Bool
  scopeFnTest : String → String → Bool
  matchAll : String → String → Option (List String)
  compileDeny : String → Option (String → Option (List String))

/-- An engine whose dynamic regexes never match and never compile
(adequate for rule sets that use no dynamic patterns). -/
def trivEngine : RegexEngine :=
  ⟨fun _ _ => false, fun _ _ => false, fun _ _ => none, fun _ => none⟩

/-! ## Rule evaluators (src/diff-validator.ts) -/

/-- The added content of a diff: values of added changes joined by
newlines. -/
def addedContentOf (diff : DiffResult) : String :=
  jsJoin "\n"
    ((diff.changes.filter (fun c => c.type = ChangeType.added)).map (fun c => c.value))

/-- The removed content of a diff: values of removed changes joined by
newlines. -/
def removedContentOf (diff : DiffResult) : String :=
  jsJoin "\n"
    ((diff.changes.filter (fun c => c.type = ChangeType.removed)).map (fun c => c.value))

/-- Collapse every whitespace run to a single space (the global
whitespace replace of the formatting check). -/
def collapseWsGo : Bool → List Char → List Char
  | _, [] => []
  | inRun, c :: rest =>
    if isJsWs c then
      if inRun then collapseWsGo true rest else ' ' :: collapseWsGo true rest
    else c :: collapseWsGo false rest

/-- JavaScript String.prototype.trim (whitespace at both ends). -/
def jsTrim (l : List Char) : List Char :=
  ((l.dropWhile isJsWs).reverse.dropWhile isJsWs).reverse

/-- The whitespace normalisation of the change_formatting check:
collapse runs to single spaces, then trim. -/
def normalizeWs (s : String) : String :=
  String.mk (jsTrim (collapseWsGo false s.data))

/-- validateScopeRule from src/diff-validator.ts. -/
def validateScopeRule (eng : RegexEngine) (rule : Rule) (original _generated : String)
    (diff : DiffResult) (fileName : Option String) : List Violation :=
  match rule with
  | Rule.scope _ patternOpt filesOpt functionsOpt =>
    let changedLines := getChangedLineNumbers diff
    let v1 : List Violation :=
      match filesOpt, fileName with
      | some files, some fn =>
        if files.length > 0 && jsNonempty fn then
          let isAllowedFile := files.any fun pat =>
            if jsIncludes pat "*" then eng.globTest pat fn
            else jsIncludes fn pat || jsIncludes pat fn
          if !isAllowedFile then
            [⟨rule, "scope", "File modification outside allowed scope", Severity.error,
              some ("File \x22" ++ fn ++ "\x22 is not in the allowed files list: "
                ++ jsJoin ", " files),
              some changedLines⟩]
          else []
        else []
      | _, _ => []
    let v2 : List Violation :=
      match functionsOpt with
      | some fns =>
        if fns.length > 0 then
          let addedContent := addedContentOf diff
          let removedContent := removedContentOf diff
          let functionsInOriginal := fns.any fun fn => eng.scopeFnTest fn original
          if !functionsInOriginal && (jsNonempty addedContent || jsNonempty removedContent) then
            [⟨rule, "scope", "Changes outside function scope", Severity.warning,
              some ("Expected changes only in functions: " ++ jsJoin ", " fns),
              some changedLines⟩]
          else []
        else []
      | none => []
    let v3 : List Violation :=
      match patternOpt with
      | some pat =>
        if jsNonempty pat then
          let noMatches :=
            match eng.matchAll pat original with
            | none => true
            | some l => l.length = 0
          if noMatches then
            let hasChanges := diff.changes.any fun c =>
              c.type = ChangeType.added || c.type = ChangeType.removed
            if hasChanges then
              [⟨rule, "scope", "Pattern not found in original code", Severity.warning,
                some ("The pattern \x22" ++ pat ++ "\x22 was not found in the original code"),
                some changedLines⟩]
            else []
          else []
        else []
      | none => []
    v1 ++ v2 ++ v3
  | _ => []

/-- The zero-or-one violations contributed by one forbidden action tag of
a refactor rule (one arm of the switch in validateRefactorRule). -/
def refactorActionViolations (rule : Rule) (original generated : String)
    (diff : DiffResult) (changedLines : List Nat) (action : String) : List Violation :=
  let a := jsToLower action
  if a = "variable_renames" || a = "variable_rename" then
    let removedVars := extractVariableNames (removedContentOf diff)
    let addedVars := extractVariableNames (addedContentOf diff)
    let removedNotInAdded := removedVars.filter fun v => !(addedVars.contains v)
    let addedNotInRemoved := addedVars.filter fun v => !(removedVars.contains v)
    if removedNotInAdded.length > 0 && addedNotInRemoved.length > 0 then
      [⟨rule, "refactor", "Possible variable rename detected", Severity.warning,
        some ("Variables removed: " ++ jsJoin ", " removedNotInAdded
          ++ ". Variables added: " ++ jsJoin ", " addedNotInRemoved),
        some changedLines⟩]
    else []
  else if a = "add_error_handling" || a = "error_handling" then
    let addedContent := addedContentOf diff
    if errorPatterns.any fun p => regexTest p addedContent && !(regexTest p original) then
      [⟨rule, "refactor", "Unsolicited error handling added", Severity.warning,
        some "New error handling code was added without being requested",
        some changedLines⟩]
    else []
  else if a = "add_comments" || a = "comments" then
    let addedContent := addedContentOf diff
    let hit := commentPatterns.any fun p =>
      match matchOnce p addedContent, matchOnce p original with
      | some _, none => true
      | some ac, some oc => ac.length > oc.length
      | none, _ => false
    if hit then
      [⟨rule, "refactor", "Unsolicited comments added", Severity.warning,
        some "New comments were added without being requested",
        some changedLines⟩]
    else []
  else if a = "change_formatting" || a = "formatting" then
    if normalizeWs original = normalizeWs generated && !(original = generated) then
      [⟨rule, "refactor", "Formatting-only changes detected", Severity.warning,
        some "Code was reformatted without changing functionality",
        some changedLines⟩]
    else []
  else []

/-- validateRefactorRule from src/diff-validator.ts: each forbidden action
appends its violations in order (the switch cases each push at most one,
breaking out of their inner pattern loops after the first hit). -/
def validateRefactorRule (rule : Rule) (original generated : String)
    (diff : DiffResult) : List Violation :=
  match rule with
  | Rule.refactor _ forbid =>
    let changedLines := getChangedLineNumbers diff
    forbid.flatMap (refactorActionViolations rule original generated diff changedLines)
  | _ => []

/-- The built-in module allowlist of validateDependenciesRule. -/
def builtinModules : List String :=
  ["fs", "path", "http", "https", "os", "util", "events", "stream", "crypto"]

/-- Details message of an unauthorized-dependency violation. -/
def depNotAllowedDetails (imp : String) (allowed : List String) : String :=
  "The dependency \x22" ++ imp ++ "\x22 is not in the allowed list: "
    ++ jsJoin ", " allowed

/-- Details message of a forbidden-dependency violation. -/
def depForbiddenDetails (imp : String) : String :=
  "The dependency \x22" ++ imp ++ "\x22 is in the forbidden list"

/-- The unauthorized-dependency violation record built by
validateDependenciesRule for one import. -/
def mkDepNotAllowedViolation (rule : Rule) (changedLines : List Nat)
    (imp : String) (allowed : List String) : Violation :=
  ⟨rule, "dependencies", "Unauthorized dependency added", Severity.error,
   some (depNotAllowedDetails imp allowed), some changedLines⟩

/-- The forbidden-dependency violation record built by
validateDependenciesRule for one import. -/
def mkDepForbiddenViolation (rule : Rule) (changedLines : List Nat)
    (imp : String) : Violation :=
  ⟨rule, "dependencies", "Forbidden dependency added", Severity.error,
   some (depForbiddenDetails imp), some changedLines⟩

/-- Whether an import name equals an entry or is prefixed by entry-slash
(the matching used for both the allowed and the forbidden lists). -/
def impMatchesEntry (imp entry : String) : Bool :=
  imp = entry || jsStartsWith imp (entry ++ "/")

/-- validateDependenciesRule from src/diff-validator.ts. -/
def validateDependenciesRule (rule : Rule) (_original _generated : String)
    (diff : DiffResult) : List Violation :=
  match rule with
  | Rule.dependencies _ allowedOpt forbiddenOpt =>
    let changedLines := getChangedLineNumbers diff
    let addedContent := addedContentOf diff
    let newImports := extractNewImports addedContent
    let va : List Violation :=
      match allowedOpt with
      | some allowed =>
        if allowed.length > 0 then
          let notAllowed := newImports.filter fun imp =>
            if jsStartsWith imp "." then false
            else if builtinModules.contains imp then false
            else !(allowed.any (impMatchesEntry imp))
          notAllowed.map fun imp => mkDepNotAllowedViolation rule changedLines imp allowed
        else []
      | none => []
    let vf : List Violation :=
      match forbiddenOpt with
      | some forbidden =>
        if forbidden.length > 0 then
          (newImports.filter fun imp => forbidden.any (impMatchesEntry imp)).map
            fun imp => mkDepForbiddenViolation rule changedLines imp
        else []
      | none => []
    va ++ vf
  | _ => []

/-- Details message of a forbidden-content violation. -/
def contentForbidDetails (f : String) : String :=
  "The content \x22" ++ f ++ "\x22 was added but is forbidden"

/-- Details message of a denied-pattern violation. -/
def contentDenyDetails (pat : String) : String :=
  "The pattern \x22" ++ pat ++ "\x22 was found in added content"

/-- The forbidden-content violation record built by validateContentRule. -/
def mkContentForbidViolation (rule : Rule) (changedLines : List Nat)
    (f : String) : Violation :=
  ⟨rule, "content", "Forbidden content added", Severity.error,
   some (contentForbidDetails f), some changedLines⟩

/-- The denied-pattern violation record built by validateContentRule. -/
def mkContentDenyViolation (rule : Rule) (changedLines : List Nat)
    (pat : String) : Violation :=
  ⟨rule, "content", "Forbidden pattern detected", Severity.error,
   some (contentDenyDetails pat), some changedLines⟩

/-- The condition under which a patternsDeny entry fires in
validateContentRule: the compiled regex matches the added content and
either doesn't match the original or matches it fewer times
(an entry whose compilation fails — the try/catch — never fires). -/
def denyHit (eng : RegexEngine) (addedContent original pat : String) : Bool :=
  match eng.compileDeny pat with
  | none => false
  | some f =>
    match f addedContent with
    | none => false
    | some ms =>
      match f original with
      | none => true
      | some os => ms.length > os.length

/-- The forbid-list check of validateContentRule: one error violation per
forbid literal present in the added content and absent from the
original. -/
def contentForbidViolations (rule : Rule) (changedLines : List Nat)
    (addedContent original : String) (forbidOpt : Option (List String)) : List Violation :=
  match forbidOpt with
  | some forbid =>
    if forbid.length > 0 then
      (forbid.filter fun f => jsIncludes addedContent f && !(jsIncludes original f)).map
        (mkContentForbidViolation rule changedLines)
    else []
  | none => []

/-- The patternsDeny check of validateContentRule: one error violation per
deny entry that compiles and fires on the added content (the try/catch of
the source skips an entry whose compilation fails). -/
def contentDenyViolations (eng : RegexEngine) (rule : Rule) (changedLines : List Nat)
    (addedContent original : String) (denyOpt : Option (List String)) : List Violation :=
  match denyOpt with
  | some deny =>
    if deny.length > 0 then
      deny.filterMap fun pat =>
        if denyHit eng addedContent original pat then
          some (mkContentDenyViolation rule changedLines pat)
        else none
    else []
  | none => []

/-- The require directive check of validateContentRule: a warning when
more than three function-like names are new in the generated text. -/
def contentRequireViolations (rule : Rule) (changedLines : List Nat)
    (original generated : String) (requireOpt : Option String) : List Violation :=
  if requireOpt = some "use_existing_only" || requireOpt = some "use_existing_patterns_only" then
    let originalFunctions := extractFunctionNames original
    let generatedFunctions := extractFunctionNames generated
    let newFunctions := generatedFunctions.filter fun f => !(originalFunctions.contains f)
    if newFunctions.length > 3 then
      [⟨rule, "content", "Too many new constructs introduced", Severity.warning,
        some (toString newFunctions.length ++ " new functions/methods were introduced: "
          ++ jsJoin ", " (newFunctions.take 5)
          ++ (if newFunctions.length > 5 then "..." else "")),
        some changedLines⟩]
    else []
  else []

/-- validateContentRule from src/diff-validator.ts: the forbid, deny and
require checks, appended in source order. -/
def validateContentRule (eng : RegexEngine) (rule : Rule) (original generated : String)
    (diff : DiffResult) : List Violation :=
  match rule with
  | Rule.content _ requireOpt forbidOpt patternsOpt =>
    let changedLines := getChangedLineNumbers diff
    let addedContent := addedContentOf diff
    let denyOpt : Option (List String) :=
      match patternsOpt with
      | some ps => ps.deny
      | none => none
    contentForbidViolations rule changedLines addedContent original forbidOpt
      ++ contentDenyViolations eng rule changedLines addedContent original denyOpt
      ++ contentRequireViolations rule changedLines original generated requireOpt
  | _ => []

/-- validateThresholdRule from src/diff-validator.ts.  Note the
max-files-changed violation is stamped with line numbers [1], not with
the changed lines. -/
def validateThresholdRule (rule : Rule) (diff : DiffResult)
    (filesChanged : Option Nat) : List Violation :=
  match rule with
  | Rule.threshold _ maxLines maxFiles _ =>
    let changedLines := getChangedLineNumbers diff
    let v1 : List Violation :=
      match maxLines with
      | some m =>
        if diff.totalLinesChanged > m then
          [⟨rule, "threshold", "Too many lines changed", Severity.error,
            some ("Changed " ++ toString diff.totalLinesChanged
              ++ " lines, maximum allowed is " ++ toString m),
            some changedLines⟩]
        else []
      | none => []
    let v2 : List Violation :=
      match maxFiles, filesChanged with
      | some m, some fc =>
        if fc > m then
          [⟨rule, "threshold", "Too many files changed", Severity.error,
            some ("Changed " ++ toString fc ++ " files, maximum allowed is " ++ toString m),
            some [1]⟩]
        else []
      | _, _ => []
    v1 ++ v2
  | _ => []

/-! ## The evaluator (validateAgainstRules, src/diff-validator.ts) -/

/-- The violations contributed by one rule: the per-kind dispatch of the
switch in validateAgainstRules. -/
def ruleViolations (eng : RegexEngine) (original generated : String) (diff : DiffResult)
    (fileName : Option String) (filesChanged : Option Nat) (rule : Rule) : List Violation :=
  match rule with
  | Rule.scope .. => validateScopeRule eng rule original generated diff fileName
  | Rule.refactor .. => validateRefactorRule rule original generated diff
  | Rule.dependencies .. => validateDependenciesRule rule original generated diff
  | Rule.content .. => validateContentRule eng rule original generated diff
  | Rule.threshold .. => validateThresholdRule rule diff filesChanged

/-- One iteration of the rule loop of validateAgainstRules: append the
rule's violations, and on a threshold rule with require_approval set the
approval flag. -/
def ruleStep (eng : RegexEngine) (original generated : String) (diff : DiffResult)
    (fileName : Option String) (filesChanged : Option Nat)
    (st : List Violation × Bool) (rule : Rule) : List Violation × Bool :=
  match rule with
  | Rule.threshold _ _ _ ra =>
    (st.1 ++ ruleViolations eng original generated diff fileName filesChanged rule,
     if ra then true else st.2)
  | _ =>
    (st.1 ++ ruleViolations eng original generated diff fileName filesChanged rule, st.2)

/-- The initial requiresApproval value:
rules.global?.require_approval_for_all ?? true. -/
def globalRequireApproval (cfg : RulesConfig) : Bool :=
  match cfg.global with
  | some g =>
    match g.require_approval_for_all with
    | some b => b
    | none => true
  | none => true

/-- validateAgainstRules from src/diff-validator.ts. -/
def validateAgainstRules (eng : RegexEngine) (original generated : String)
    (rules : RulesConfig) (fileName : Option String) (filesChanged : Option Nat) :
    ValidationResult :=
  let diff := computeDiff original generated
  let st := rules.rules.foldl (ruleStep eng original generated diff fileName filesChanged)
    ([], globalRequireApproval rules)
  let hasErrors := st.1.any fun v => v.severity = Severity.error
  ⟨!hasErrors, st.1, diff, st.2⟩

/-! ## Configuration resolver (applyRulesOverride, src/rules.ts and
src/core/rules-loader.ts — the two copies are line-for-line identical) -/

/-- RulesOverride from src/rules.ts. -/
structure RulesOverride where
  replace : Option Bool
  rules : Option (List Rule)
  disable : Option (List String)
  global : Option GlobalCfg
deriving DecidableEq, Repr

/-- JavaScript object-spread merge of two optional settings records:
a field of the right operand wins when present (spreading an absent
record contributes nothing). -/
def spreadGlobal (a b : Option GlobalCfg) : GlobalCfg :=
  let ga := a.getD ⟨none, none, none⟩
  let gb := b.getD ⟨none, none, none⟩
  ⟨gb.require_approval_for_all <|> ga.require_approval_for_all,
   gb.log_all_interactions <|> ga.log_all_interactions,
   gb.strict_mode <|> ga.strict_mode⟩

/-- applyRulesOverride from src/rules.ts (and src/core/rules-loader.ts). -/
def applyRulesOverride (base : RulesConfig) (ov : RulesOverride) : RulesConfig :=
  if ov.replace.getD false then
    ⟨ov.rules.getD [], some (spreadGlobal DEFAULT_RULES.global ov.global)⟩
  else
    let merged1 :=
      match ov.disable with
      | some disable =>
        if disable.length > 0 then
          base.rules.filter fun rule =>
            let typeMatch := disable.contains rule.type
            let descMatch :=
              match rule.descriptionField with
              | some d =>
                jsNonempty d && disable.any fun s =>
                  jsIncludes (jsToLower d) (jsToLower s)
              | none => false
            !typeMatch && !descMatch
        else base.rules
      | none => base.rules
    let merged2 :=
      match ov.rules with
      | some rs => if rs.length > 0 then merged1 ++ rs else merged1
      | none => merged1
    ⟨merged2, some (spreadGlobal base.global ov.global)⟩

/-! ## Exception updater (addExceptionsToRules, src/rules.ts)

The pure mutation core of addExceptionsToRules is embedded; the file
read/write, YAML round-trip, logging and the audit-trail list around it
are external-collaborator plumbing. -/

/-- The parse regex of the dependency branch of addExceptionsToRules. -/
def depDetailsPattern : List RItem :=
  [RItem.lit "The dependency \x22".toList, RItem.cap (CharCls.noneOf ['\x22']),
   RItem.one (CharCls.oneOf ['\x22'])]

/-- The first parse regex of the content branch of addExceptionsToRules. -/
def contentDetailsPattern : List RItem :=
  [RItem.lit "The content \x22".toList, RItem.cap (CharCls.noneOf ['\x22']),
   RItem.one (CharCls.oneOf ['\x22'])]

/-- The second parse regex of the content branch of addExceptionsToRules. -/
def patternDetailsPattern : List RItem :=
  [RItem.lit "The pattern \x22".toList, RItem.cap (CharCls.noneOf ['\x22']),
   RItem.one (CharCls.oneOf ['\x22'])]

/-- First capture of a non-global match of a fixed pattern, as
details.match(regex) followed by match[1] in the source. -/
def parseCapture (items : List RItem) (s : String) : Option String :=
  (scanFrom items s.data).map (fun r => String.mk r.2.1)

/-- The mutation addExceptionsToRules applies to one rule for one
approved violation, with a flag telling whether anything changed.
Rules whose type differs from the violation's ruleType are untouched. -/
def exceptionStepRule (v : Violation) (rule : Rule) : Rule × Bool :=
  if rule.type = v.ruleType then
    match rule, v.details with
    | Rule.dependencies d al fb, some det =>
      match parseCapture depDetailsPattern det with
      | some dep =>
        let al0 := al.getD []
        let alM := if al0.contains dep then (al0, false) else (al0 ++ [dep], true)
        let fbM :=
          match fb with
          | some fbl =>
            if fbl.contains dep then (some (fbl.erase dep), true) else (some fbl, false)
          | none => (none, false)
        (Rule.dependencies d (some alM.1) fbM.1, alM.2 || fbM.2)
      | none => (rule, false)
    | Rule.content d rq fo pats, some det =>
      let patOpt :=
        match parseCapture contentDetailsPattern det with
        | some p => some p
        | none => parseCapture patternDetailsPattern det
      match patOpt with
      | some p =>
        let foM :=
          match fo with
          | some fos =>
            if fos.contains p then (some (fos.erase p), true) else (some fos, false)
          | none => (none, false)
        let paM :=
          match pats with
          | some ps =>
            match ps.deny with
            | some dl =>
              if dl.contains p then
                ((some ⟨ps.allow, some (dl.erase p)⟩ : Option ContentPatterns), true)
              else (some ps, false)
            | none => (some ps, false)
          | none => (none, false)
        (Rule.content d rq foM.1 paM.1, foM.2 || paM.2)
      | none => (rule, false)
    | _, _ => (rule, false)
  else (rule, false)

/-- Process one approved violation: apply its mutation to every rule of
matching type, accumulating the modified flag. -/
def applyExceptionViolation (st : List Rule × Bool) (v : Violation) : List Rule × Bool :=
  let res := st.1.map (exceptionStepRule v)
  (res.map Prod.fst, st.2 || res.any Prod.snd)

/-- Pure mutation core of addExceptionsToRules from src/rules.ts:
the updated config and whether anything changed. -/
def addExceptions (cfg : RulesConfig) (violations : List Violation) : RulesConfig × Bool :=
  let st := violations.foldl applyExceptionViolation (cfg.rules, false)
  (⟨st.1, cfg.global⟩, st.2)

/-! ## Specification-side definitions

These definitions transcribe the claims' wording; the theorems compare
them with the source-side definitions above. -/

/-- Spec-side cursor contract of the diff line numbering (claim C3):
each group is stamped with the cursor's current value and carries its own
line count; the cursor advances by the line count except on removed
groups. -/
def cursorOK : Nat → List DiffChange → Prop
  | _, [] => True
  | cur, ch :: rest =>
    ch.lineNumber = some cur ∧ ch.count = some (lineCountOf ch.value) ∧
    cursorOK (if ch.type = ChangeType.removed then cur else cur + lineCountOf ch.value) rest

/-- Spec-side changed-line numbers (claim C10): the new-file line numbers
covered by the added diff groups, or exactly [1] when there is no added
group. -/
def changedLinesSpec (diff : DiffResult) : List Nat :=
  let covered := (diff.changes.filter (fun c => c.type = ChangeType.added)).flatMap
    fun c =>
      match c.lineNumber with
      | some ln => rangeFrom ln (jsCountOr1 c.count)
      | none => []
  if covered.isEmpty then [1] else covered

/-- Whether a rule's description case-insensitively contains a disable
string (claim C4; a missing or empty description contains nothing). -/
def descContainsCI (r : Rule) (d : String) : Bool :=
  match r.descriptionField with
  | some s => jsNonempty s && jsIncludes (jsToLower s) (jsToLower d)
  | none => false

/-- Spec-side override application (claim C4): on replace, the override
rules (or empty) with defaults merged with the override globals; otherwise
the base rules minus every rule whose kind equals, or whose description
case-insensitively contains, a disable string, followed by the override
rules, with override globals winning per-field. -/
def applyRulesOverrideSpec (base : RulesConfig) (ov : RulesOverride) : RulesConfig :=
  if ov.replace.getD false then
    ⟨ov.rules.getD [], some (spreadGlobal DEFAULT_RULES.global ov.global)⟩
  else
    let disable := ov.disable.getD []
    let kept := base.rules.filter fun r =>
      !(disable.any fun d => r.type = d || descContainsCI r d)
    ⟨kept ++ ov.rules.getD [], some (spreadGlobal base.global ov.global)⟩

/-- Whether dependency extraction discards a name: relative imports and
the fixed builtin allowlist (claim C5). -/
def discardImport (imp : String) : Bool :=
  jsStartsWith imp "." || builtinModules.contains imp

/-- Spec-side dependency checker transcribing claim C5 as stated: the
discard of relative and builtin names happens at extraction, before both
the allowed and the forbidden checks. -/
def validateDependenciesRuleClaim (rule : Rule) (_original _generated : String)
    (diff : DiffResult) : List Violation :=
  match rule with
  | Rule.dependencies _ allowedOpt forbiddenOpt =>
    let changedLines := getChangedLineNumbers diff
    let extracted := (extractNewImports (addedContentOf diff)).filter
      fun imp => !(discardImport imp)
    let va : List Violation :=
      match allowedOpt with
      | some allowed =>
        if allowed.length > 0 then
          (extracted.filter fun imp => !(allowed.any (impMatchesEntry imp))).map
            fun imp => mkDepNotAllowedViolation rule changedLines imp allowed
        else []
      | none => []
    let vf : List Violation :=
      match forbiddenOpt with
      | some forbidden =>
        if forbidden.length > 0 then
          (extracted.filter fun imp => forbidden.any (impMatchesEntry imp)).map
            fun imp => mkDepForbiddenViolation rule changedLines imp
        else []
      | none => []
    va ++ vf
  | _ => []

/-- Spec-side dependency checker per the amended claim C5: the discard of
relative and builtin names applies only to the allowed check; the
forbidden check applies to every extracted name. -/
def validateDependenciesRuleAmended (rule : Rule) (_original _generated : String)
    (diff : DiffResult) : List Violation :=
  match rule with
  | Rule.dependencies _ allowedOpt forbiddenOpt =>
    let changedLines := getChangedLineNumbers diff
    let extracted := extractNewImports (addedContentOf diff)
    let va : List Violation :=
      match allowedOpt with
      | some allowed =>
        if allowed.length > 0 then
          (((extracted.filter fun imp => !(discardImport imp)).filter
              fun imp => !(allowed.any (impMatchesEntry imp))).map
            fun imp => mkDepNotAllowedViolation rule changedLines imp allowed)
        else []
      | none => []
    let vf : List Violation :=
      match forbiddenOpt with
      | some forbidden =>
        if forbidden.length > 0 then
          (extracted.filter fun imp => forbidden.any (impMatchesEntry imp)).map
            fun imp => mkDepForbiddenViolation rule changedLines imp
        else []
      | none => []
    va ++ vf
  | _ => []

/-- The require_approval flag of a threshold rule, false on other kinds. -/
def thresholdRA : Rule → Bool
  | Rule.threshold _ _ _ ra => ra
  | _ => false

/-- A well-behaved deny-pattern engine: a compiled regex never reports an
empty match array, mirroring JavaScript String.prototype.match with a
global regex, which returns null instead of an empty array. -/
def WFDenyEngine (eng : RegexEngine) : Prop :=
  ∀ p f, eng.compileDeny p = some f → ∀ s, ¬(f s = some [])

/-- Length of an optional match array, counting null as zero matches. -/
def optLen (o : Option (List String)) : Nat := (o.getD []).length

/-- Claim C7's firing condition as stated: the pattern's match count in
the full generated text exceeds its match count in the original text
(false for a pattern that does not compile). -/
def denyHitGenerated (eng : RegexEngine) (generated original pat : String) : Bool :=
  match eng.compileDeny pat with
  | none => false
  | some f => optLen (f generated) > optLen (f original)

/-- The amended firing condition of claim C7: the same count comparison,
but on the added content rather than the full generated text. -/
def denyHitCounts (eng : RegexEngine) (addedContent original pat : String) : Bool :=
  match eng.compileDeny pat with
  | none => false
  | some f => optLen (f addedContent) > optLen (f original)

/-! ## Concrete scenario constants used by the claims -/

/-- The content rule of the spec's console.log scenario (claim C6). -/
def consoleLogRule : Rule := Rule.content none none (some ["console.log"]) none

/-- Original text of the console.log scenario. -/
def scenarioOriginalC6 : String := "function test() \x7b\x7d"

/-- Modified text of the console.log scenario. -/
def scenarioGeneratedC6 : String :=
  "function test() \x7b console.log(\x27debug\x27); \x7d"

/-- The dependency rule of the spec's moment round-trip (claim C8). -/
def depMomentRule : Rule := Rule.dependencies none none (some ["moment"])

/-- The rule set of the moment round-trip. -/
def momentRules : RulesConfig := ⟨[depMomentRule], none⟩

/-- The moment rule after the approved exception is applied: moment moved
to the allowed list, removed from the forbidden list. -/
def mutatedMomentRule : Rule := Rule.dependencies none (some ["moment"]) (some [])

/-- The modified text of the moment scenario. -/
def momentImportText : String := "import moment from \x27moment\x27;"

/-- An engine compiling exactly the deny pattern z, which matches each
occurrence of the letter z (the JavaScript behaviour of the regex
compiled from that one-character pattern). -/
def subZEngine : RegexEngine :=
  ⟨fun _ _ => false, fun _ _ => false, fun _ _ => none,
   fun p =>
     if p = "z" then
       some fun s =>
         let l := (s.data.filter fun c => c = 'z').map fun _ => "z"
         if l.isEmpty then none else some l
     else none⟩

/-! ## The claims as stated, for the corrected ones -/

/-- Claim C2 as stated: requiresApproval iff the global setting (default
true) or some threshold rule that produced a violation has
require_approval. -/
def claimC2Stmt : Prop :=
  ∀ eng original generated rules fileName filesChanged,
    ((validateAgainstRules eng original generated rules fileName filesChanged).requiresApproval
        = true ↔
      (globalRequireApproval rules = true ∨
        ∃ r ∈ rules.rules, thresholdRA r = true ∧
          ∃ v ∈ (validateAgainstRules eng original generated rules fileName
              filesChanged).violations, v.rule = r))

/-- Claim C5 as stated: the dependency checker coincides with the
spec-side checker that discards relative and builtin names before both
checks. -/
def claimC5Stmt : Prop :=
  ∀ rule original generated,
    validateDependenciesRule rule original generated (computeDiff original generated)
      = validateDependenciesRuleClaim rule original generated (computeDiff original generated)

/-- Claim C7 as stated: under a well-behaved engine, every patternsDeny
entry whose match count in the generated text exceeds its match count in
the original text produces its error violation. -/
def claimC7Stmt : Prop :=
  ∀ eng, WFDenyEngine eng →
    ∀ original generated d rq fo al denyList pat,
      pat ∈ denyList →
      denyHitGenerated eng generated original pat = true →
      mkContentDenyViolation (Rule.content d rq fo (some ⟨al, some denyList⟩))
          (getChangedLineNumbers (computeDiff original generated)) pat
        ∈ validateContentRule eng (Rule.content d rq fo (some ⟨al, some denyList⟩))
            original generated (computeDiff original generated)

/-- Claim C10 as stated: every violation carries the covered added-group
line numbers (or [1] when there is no added group). -/
def claimC10Stmt : Prop :=
  ∀ eng original generated rules fileName filesChanged,
    ∀ v ∈ (validateAgainstRules eng original generated rules fileName
        filesChanged).violations,
      v.lineNumbers = some (changedLinesSpec (computeDiff original generated))

/-- Rule set of the claim C2 counterexample: approval off globally, one
threshold rule with require_approval but thresholds that can never fire. -/
def c2CexRules : RulesConfig :=
  ⟨[Rule.threshold none none none true], some ⟨some false, none, none⟩⟩

/-- Rule of the claim C5 counterexample: the builtin fs forbidden. -/
def c5CexRule : Rule := Rule.dependencies none none (some ["fs"])

/-- Modified text of the claim C5 counterexample. -/
def c5CexText : String := "const fs = require(\x27fs\x27);"

/-- Rule set of the claim C10 counterexample: a threshold rule limiting
the batch file count to zero. -/
def c10CexRules : RulesConfig :=
  ⟨[Rule.threshold none none (some 0) false], none⟩

/-! ## Shared lemmas -/

/-- One evaluator step appends the rule's violations and ors in the
threshold approval flag. -/
theorem ruleStep_eq (eng : RegexEngine) (original generated : String) (diff : DiffResult)
    (fileName : Option String) (filesChanged : Option Nat)
    (st : List Violation × Bool) (r : Rule) :
    ruleStep eng original generated diff fileName filesChanged st r
      = (st.1 ++ ruleViolations eng original generated diff fileName filesChanged r,
         st.2 || thresholdRA r) := by
  cases r <;> simp [ruleStep, thresholdRA]
  case threshold d ml mf ra => cases ra <;> simp

/-- The violations accumulated by the evaluator loop. -/
theorem foldl_ruleStep_fst (eng : RegexEngine) (original generated : String)
    (diff : DiffResult) (fileName : Option String) (filesChanged : Option Nat) :
    ∀ (rs : List Rule) (vs : List Violation) (b : Bool),
      (rs.foldl (ruleStep eng original generated diff fileName filesChanged) (vs, b)).1
        = vs ++ rs.flatMap (ruleViolations eng original generated diff fileName filesChanged) := by
  intro rs
  induction rs with
  | nil => intro vs b; simp
  | cons r rest ih =>
    intro vs b
    simp only [List.foldl_cons, ruleStep_eq, List.flatMap_cons]
    rw [ih]
    simp [List.append_assoc]

/-- The approval flag accumulated by the evaluator loop. -/
theorem foldl_ruleStep_snd (eng : RegexEngine) (original generated : String)
    (diff : DiffResult) (fileName : Option String) (filesChanged : Option Nat) :
    ∀ (rs : List Rule) (vs : List Violation) (b : Bool),
      (rs.foldl (ruleStep eng original generated diff fileName filesChanged) (vs, b)).2
        = (b || rs.any thresholdRA) := by
  intro rs
  induction rs with
  | nil => intro vs b; simp
  | cons r rest ih =>
    intro vs b
    simp only [List.foldl_cons, ruleStep_eq, List.any_cons]
    rw [ih]
    simp [Bool.or_assoc]

/-- The violations of a validation result: each rule's violations, in
declaration order. -/
theorem validateAgainstRules_violations (eng : RegexEngine) (original generated : String)
    (rules : RulesConfig) (fileName : Option String) (filesChanged : Option Nat) :
    (validateAgainstRules eng original generated rules fileName filesChanged).violations
      = rules.rules.flatMap
          (ruleViolations eng original generated (computeDiff original generated)
            fileName filesChanged) := by
  simp [validateAgainstRules, foldl_ruleStep_fst]

/-- The approval flag of a validation result. -/
theorem validateAgainstRules_requiresApproval (eng : RegexEngine)
    (original generated : String) (rules : RulesConfig)
    (fileName : Option String) (filesChanged : Option Nat) :
    (validateAgainstRules eng original generated rules fileName filesChanged).requiresApproval
      = (globalRequireApproval rules || rules.rules.any thresholdRA) := by
  simp [validateAgainstRules, foldl_ruleStep_snd]

/-- The valid flag of a validation result is the negated error check over
its own violations list. -/
theorem validateAgainstRules_valid (eng : RegexEngine) (original generated : String)
    (rules : RulesConfig) (fileName : Option String) (filesChanged : Option Nat) :
    (validateAgainstRules eng original generated rules fileName filesChanged).valid
      = !((validateAgainstRules eng original generated rules fileName
            filesChanged).violations.any fun v => v.severity = Severity.error) := rfl

/-! ## Claim C1 -/

/-- C1: for every pair of input texts, every rule set, and every optional
file name and batch-file count, the ValidationResult returned by
validateAgainstRules has valid = true if and only if no violation in its
violations list has severity error. -/
theorem c1_valid_iff_no_error (eng : RegexEngine) (original generated : String)
    (rules : RulesConfig) (fileName : Option String) (filesChanged : Option Nat) :
    (validateAgainstRules eng original generated rules fileName filesChanged).valid = true ↔
      ∀ v ∈ (validateAgainstRules eng original generated rules fileName
          filesChanged).violations, ¬(v.severity = Severity.error) := by
  rw [validateAgainstRules_valid]
  simp

/-! ## Claim C3 -/

/-- The stamping loop satisfies the cursor contract from any starting
cursor. -/
theorem computeDiffGo_cursorOK : ∀ (raw : List RawChange) (cur : Nat),
    cursorOK cur (computeDiffGo raw cur).1 := by
  intro raw
  induction raw with
  | nil => intro cur; simp [computeDiffGo, cursorOK]
  | cons ch rest ih =>
    intro cur
    by_cases ha : ch.added
    · simp only [computeDiffGo, ha, if_true]
      exact ⟨rfl, rfl, by simpa using ih (cur + lineCountOf ch.value)⟩
    · by_cases hr : ch.removed
      · simp only [computeDiffGo, ha, hr, if_false, if_true]
        exact ⟨rfl, rfl, by simpa using ih cur⟩
      · simp only [computeDiffGo, ha, hr, if_false]
        exact ⟨rfl, rfl, by simpa using ih (cur + lineCountOf ch.value)⟩

/-- C3: in every DiffResult returned by computeDiff, group line numbers
follow a cursor initialised to 1 over new-file lines: unchanged and added
groups are stamped with the cursor and advance it by their line count,
removed groups are stamped with the cursor without advancing it. -/
theorem c3_cursor_policy (original generated : String) :
    cursorOK 1 (computeDiff original generated).changes := by
  simpa [computeDiff] using computeDiffGo_cursorOK (diffLines original generated) 1

/-! ## Claim C9 -/

/-- C9: for every text x, computeDiff x x is a single unchanged group with
zero added, removed and total changed lines. -/
theorem c9_diff_identical (x : String) :
    computeDiff x x
      = ⟨[⟨ChangeType.unchanged, x, some 1, some (lineCountOf x)⟩], 0, 0, 0⟩ := by
  simp [computeDiff, diffLines, computeDiffGo]

/-! ## Claim C2 -/

/-- Counterexample to C2 as stated: with the global setting false and a
threshold rule whose limits never fire but whose require_approval is
true, the result requires approval although no threshold rule produced a
violation. -/
theorem c2_counterexample : ¬ claimC2Stmt := by
  intro h
  have h2 := (h trivEngine "a" "a" c2CexRules none none).mp (by decide)
  rcases h2 with hg | ⟨r, _, _, v, hv, _⟩
  · exact absurd hg (by decide)
  · have hnil : (validateAgainstRules trivEngine "a" "a" c2CexRules none none).violations
        = [] := by decide
    rw [hnil] at hv
    exact absurd hv (List.not_mem_nil v)

/-- C2 amended: requiresApproval is true iff the rule set's global
require_approval_for_all setting (defaulting to true when absent) is true
or some threshold rule of the set — whether or not it produced a
violation — has require_approval = true. -/
theorem c2_approval_amended (eng : RegexEngine) (original generated : String)
    (rules : RulesConfig) (fileName : Option String) (filesChanged : Option Nat) :
    (validateAgainstRules eng original generated rules fileName
        filesChanged).requiresApproval = true ↔
      (globalRequireApproval rules = true ∨
        ∃ r ∈ rules.rules, thresholdRA r = true) := by
  rw [validateAgainstRules_requiresApproval]
  simp [List.any_eq_true]

/-! ## Claim C4 -/

/-- List containment of a string is the any-fold of equality tests. -/
theorem contains_eq_any (l : List String) (a : String) :
    l.contains a = l.any fun d => a = d := by
  induction l with
  | nil => rfl
  | cons b rest ih =>
    simp only [List.contains_cons, List.any_cons, ← ih]
    by_cases hb : a = b <;> simp [hb]

/-- any distributes over a disjunction of predicates. -/
theorem any_or_distrib (l : List String) (p q : String → Bool) :
    (l.any fun x => p x || q x) = (l.any p || l.any q) := by
  induction l with
  | nil => rfl
  | cons b rest ih =>
    simp only [List.any_cons, ih]
    cases p b <;> cases q b <;> cases rest.any p <;> cases rest.any q <;> rfl

/-- A constant conjunct pulls out of any. -/
theorem any_and_left (l : List String) (c : Bool) (p : String → Bool) :
    (l.any fun x => c && p x) = (c && l.any p) := by
  induction l with
  | nil => simp
  | cons b rest ih =>
    simp only [List.any_cons, ih]
    cases c <;> simp

/-- The description side of the disable check, rewritten through
descContainsCI. -/
theorem any_descContainsCI (disable : List String) (r : Rule) :
    disable.any (descContainsCI r)
      = (match r.descriptionField with
         | some d =>
           jsNonempty d && disable.any fun s => jsIncludes (jsToLower d) (jsToLower s)
         | none => false) := by
  cases hd : r.descriptionField with
  | none =>
    have hfun : descContainsCI r = fun _ => false := by
      funext dd; simp [descContainsCI, hd]
    rw [hfun]
    simp
  | some d =>
    have hfun : descContainsCI r
        = fun dd => jsNonempty d && jsIncludes (jsToLower d) (jsToLower dd) := by
      funext dd; simp [descContainsCI, hd]
    rw [hfun, any_and_left]

/-- C4: applyRulesOverride coincides with the claim's description: on
replace, the override rules (or empty) with defaults merged with the
override globals, the accumulated set discarded regardless of disable;
otherwise the base rules minus every rule whose kind equals, or whose
description case-insensitively contains, a disable string, followed by
the override rules appended at the end, with override globals winning
per-field. -/
theorem c4_override_merge (base : RulesConfig) (ov : RulesOverride) :
    applyRulesOverride base ov = applyRulesOverrideSpec base ov := by
  have hmem : ∀ (disable : List String) (a : String),
      decide (a ∈ disable) = disable.any fun d => decide (a = d) := by
    intro disable a
    induction disable with
    | nil => simp
    | cons b rest ih => simp [List.mem_cons, ih]
  have hpred : ∀ (disable : List String) (r : Rule),
      (!decide (r.type ∈ disable)
        && !(match r.descriptionField with
             | some d =>
               jsNonempty d && disable.any fun s =>
                 jsIncludes (jsToLower d) (jsToLower s)
             | none => false))
      = !(disable.any fun d => decide (r.type = d) || descContainsCI r d) := by
    intro disable r
    rw [any_or_distrib disable (fun d => decide (r.type = d)) (descContainsCI r),
      Bool.not_or, hmem, any_descContainsCI]
  by_cases hr : ov.replace.getD false
  · simp [applyRulesOverride, applyRulesOverrideSpec, hr]
  · simp only [Bool.not_eq_true] at hr
    cases hdis : ov.disable with
    | none =>
      cases hrs : ov.rules with
      | none => simp [applyRulesOverride, applyRulesOverrideSpec, hr, hdis, hrs]
      | some rs =>
        cases rs with
        | nil => simp [applyRulesOverride, applyRulesOverrideSpec, hr, hdis, hrs]
        | cons r rest =>
          simp [applyRulesOverride, applyRulesOverrideSpec, hr, hdis, hrs]
    | some disable =>
      by_cases hlen : disable.length > 0
      · cases hrs : ov.rules with
        | none =>
          simp [applyRulesOverride, applyRulesOverrideSpec, hr, hdis, hrs, hlen, hpred]
        | some rs =>
          cases rs with
          | nil =>
            simp [applyRulesOverride, applyRulesOverrideSpec, hr, hdis, hrs, hlen, hpred]
          | cons r rest =>
            simp [applyRulesOverride, applyRulesOverrideSpec, hr, hdis, hrs, hlen, hpred]
      · have hnil : disable = [] := List.length_eq_zero.mp (by omega)
        subst hnil
        cases hrs : ov.rules with
        | none => simp [applyRulesOverride, applyRulesOverrideSpec, hr, hdis, hrs]
        | some rs =>
          cases rs with
          | nil => simp [applyRulesOverride, applyRulesOverrideSpec, hr, hdis, hrs]
          | cons r rest =>
            simp [applyRulesOverride, applyRulesOverrideSpec, hr, hdis, hrs]

/-! ## Claim C5 -/

/-- Counterexample to C5 as stated: the builtin fs in a forbidden list is
flagged by the source (the builtin discard only guards the allowed
check), while the claim's reading discards it before both checks. -/
theorem c5_counterexample : ¬ claimC5Stmt := by
  intro h
  exact absurd (h c5CexRule "" c5CexText) (by decide)

/-- C5 amended: dependency checking extracts import targets from the
added text only, takes the first path segment and strips a leading scope
marker; the discard of relative imports and the builtin allowlist applies
only to the allowed-list check, whose violations are exactly the
remaining names matching no allowed entry, while the forbidden-list check
flags every extracted name equal to or slash-prefixed by a forbidden
entry. -/
theorem c5_dependency_check_amended (rule : Rule) (original generated : String)
    (diff : DiffResult) :
    validateDependenciesRule rule original generated diff
      = validateDependenciesRuleAmended rule original generated diff := by
  cases rule with
  | scope a b c d => rfl
  | refactor a b => rfl
  | content a b c d => rfl
  | threshold a b c d => rfl
  | dependencies d al fb =>
    cases al with
    | none => rfl
    | some allowed =>
      by_cases hlen : allowed.length > 0
      · simp only [validateDependenciesRule, validateDependenciesRuleAmended, hlen,
          if_true, List.filter_filter]
        congr 2
        apply List.filter_congr
        intro imp _
        show (if jsStartsWith imp "." = true then false
              else if builtinModules.contains imp = true then false
              else !(allowed.any (impMatchesEntry imp)))
            = (!(allowed.any (impMatchesEntry imp)) && !(discardImport imp))
        unfold discardImport
        cases h1 : jsStartsWith imp "." <;>
          cases h2 : builtinModules.contains imp <;>
            simp [h1, h2]
      · simp only [validateDependenciesRule, validateDependenciesRuleAmended, hlen, if_false]

/-! ## Claim C6 -/

/-- Strings with equal character data are equal. -/
theorem string_eq_of_data {a b : String} (h : a.data = b.data) : a = b := by
  cases a; cases b; exact congrArg String.mk (by simpa using h)

/-- Surrounding a string with a fixed prefix and suffix is injective. -/
theorem affix_inj (pre suf a b : String) (h : pre ++ a ++ suf = pre ++ b ++ suf) :
    a = b := by
  have hd := congrArg String.data h
  simp only [String.data_append] at hd
  rw [List.append_assoc, List.append_assoc] at hd
  exact string_eq_of_data (List.append_cancel_right (List.append_cancel_left hd))

/-- The forbidden-content violation record is injective in the literal. -/
theorem mkContentForbidViolation_inj (rule : Rule) (cl : List Nat) :
    Function.Injective (mkContentForbidViolation rule cl) := by
  intro a b h
  have hd := congrArg Violation.details h
  simp only [mkContentForbidViolation] at hd
  exact affix_inj _ _ _ _ (Option.some.inj hd)

/-- A deny-part violation is never a forbid-part violation record (the
description fields are different constants). -/
theorem mkDeny_ne_mkForbid (r1 : Rule) (c1 : List Nat) (p : String)
    (r2 : Rule) (c2 : List Nat) (f : String) :
    ¬(mkContentDenyViolation r1 c1 p = mkContentForbidViolation r2 c2 f) := by
  intro h
  have hd := congrArg Violation.description h
  simp [mkContentDenyViolation, mkContentForbidViolation] at hd

/-- A warning-severity violation is never a forbid-part violation record. -/
theorem warning_ne_mkForbid {v : Violation} (h : v.severity = Severity.warning)
    (r : Rule) (c : List Nat) (f : String) :
    ¬(v = mkContentForbidViolation r c f) := by
  intro he
  rw [he] at h
  simp [mkContentForbidViolation] at h

/-- The forbid check contributes one violation per occurrence of a firing
literal in the forbid list, and none for a non-firing literal. -/
theorem contentForbidViolations_count (rule : Rule) (cl : List Nat)
    (a o : String) (l : List String) (f : String) :
    (contentForbidViolations rule cl a o (some l)).count
        (mkContentForbidViolation rule cl f)
      = if jsIncludes a f && !(jsIncludes o f) then l.count f else 0 := by
  by_cases hfl : l.length > 0
  · simp only [contentForbidViolations, if_pos hfl]
    rw [List.count_map_of_injective _ _ (mkContentForbidViolation_inj rule cl) f]
    by_cases hc : (jsIncludes a f && !(jsIncludes o f)) = true
    · rw [if_pos hc]
      exact List.count_filter hc
    · rw [if_neg hc, List.count_eq_zero.mpr]
      intro hmem
      exact hc (List.mem_filter.mp hmem).2
  · have : l = [] := List.length_eq_zero.mp (by omega)
    subst this
    simp [contentForbidViolations]

/-- The deny check never contributes a forbid-part violation record. -/
theorem contentDenyViolations_count_forbid (eng : RegexEngine) (rule : Rule)
    (cl : List Nat) (a o : String) (denyOpt : Option (List String))
    (r2 : Rule) (c2 : List Nat) (f : String) :
    (contentDenyViolations eng rule cl a o denyOpt).count
        (mkContentForbidViolation r2 c2 f) = 0 := by
  apply List.count_eq_zero.mpr
  intro hmem
  cases denyOpt with
  | none => exact absurd hmem (List.not_mem_nil _)
  | some deny =>
    by_cases hdl : deny.length > 0
    · simp only [contentDenyViolations, if_pos hdl] at hmem
      obtain ⟨pat, _, hpe⟩ := List.mem_filterMap.mp hmem
      by_cases hh : denyHit eng a o pat = true
      · rw [if_pos hh] at hpe
        exact mkDeny_ne_mkForbid rule cl pat r2 c2 f (Option.some.inj hpe)
      · rw [if_neg hh] at hpe
        exact Option.noConfusion hpe
    · simp only [contentDenyViolations, if_neg hdl] at hmem
      exact absurd hmem (List.not_mem_nil _)

/-- The require check never contributes a forbid-part violation record
(it only emits warnings). -/
theorem contentRequireViolations_count_forbid (rule : Rule) (cl : List Nat)
    (o g : String) (rq : Option String) (r2 : Rule) (c2 : List Nat) (f : String) :
    (contentRequireViolations rule cl o g rq).count
        (mkContentForbidViolation r2 c2 f) = 0 := by
  apply List.count_eq_zero.mpr
  intro hmem
  simp only [contentRequireViolations] at hmem
  split at hmem
  · split at hmem
    · exact warning_ne_mkForbid rfl r2 c2 f (List.mem_singleton.mp hmem).symm
    · exact absurd hmem (List.not_mem_nil _)
  · exact absurd hmem (List.not_mem_nil _)

/-- C6: in an evaluation of a content rule with a forbid list, each
occurrence of a literal in the list yields exactly one error-severity
content violation when the literal occurs in the added text and nowhere
in the original text, and none otherwise (in particular none when the
original already contains it); and the spec's console.log scenario yields
exactly one content violation, of severity error. -/
theorem c6_content_forbid :
    (∀ (eng : RegexEngine) (original generated : String) (d rq : Option String)
        (pats : Option ContentPatterns) (forbidList : List String) (f : String),
      (validateContentRule eng (Rule.content d rq (some forbidList) pats)
          original generated (computeDiff original generated)).count
        (mkContentForbidViolation (Rule.content d rq (some forbidList) pats)
          (getChangedLineNumbers (computeDiff original generated)) f)
      = if jsIncludes (addedContentOf (computeDiff original generated)) f
            && !(jsIncludes original f) then forbidList.count f else 0)
    ∧ (∀ eng : RegexEngine,
        (validateAgainstRules eng scenarioOriginalC6 scenarioGeneratedC6
            ⟨[consoleLogRule], none⟩ none none).violations
          = [mkContentForbidViolation consoleLogRule [1] "console.log"]
        ∧ (mkContentForbidViolation consoleLogRule [1] "console.log").severity
            = Severity.error) := by
  constructor
  · intro eng original generated d rq pats forbidList f
    simp only [validateContentRule]
    rw [List.count_append, List.count_append,
      contentForbidViolations_count, contentDenyViolations_count_forbid,
      contentRequireViolations_count_forbid]
    omega
  · intro eng
    exact ⟨rfl, rfl⟩

/-! ## Claim C7 -/

/-- The denied-pattern violation record is injective in the pattern. -/
theorem mkContentDenyViolation_inj (rule : Rule) (cl : List Nat) :
    Function.Injective (mkContentDenyViolation rule cl) := by
  intro a b h
  have hd := congrArg Violation.details h
  simp only [mkContentDenyViolation] at hd
  exact affix_inj _ _ _ _ (Option.some.inj hd)

/-- A warning-severity violation is never a deny-part violation record. -/
theorem warning_ne_mkDeny {v : Violation} (h : v.severity = Severity.warning)
    (r : Rule) (c : List Nat) (p : String) :
    ¬(v = mkContentDenyViolation r c p) := by
  intro he
  rw [he] at h
  simp [mkContentDenyViolation] at h

/-- Count of one deny-part record in the filterMap of the deny loop. -/
theorem contentDeny_filterMap_count (eng : RegexEngine) (rule : Rule) (cl : List Nat)
    (a o : String) (deny : List String) (pat : String) :
    (deny.filterMap fun q =>
        if denyHit eng a o q then some (mkContentDenyViolation rule cl q)
        else none).count (mkContentDenyViolation rule cl pat)
      = if denyHit eng a o pat then deny.count pat else 0 := by
  induction deny with
  | nil => simp
  | cons q rest ih =>
    rw [List.filterMap_cons]
    by_cases hq : denyHit eng a o q = true
    · rw [if_pos hq, List.count_cons, ih]
      by_cases hqp : q = pat
      · subst hqp
        simp [hq, List.count_cons]
      · have hne : ¬(mkContentDenyViolation rule cl q
            = mkContentDenyViolation rule cl pat) := by
          intro he
          exact hqp (mkContentDenyViolation_inj rule cl he)
        by_cases hdp : denyHit eng a o pat = true
        · simp [hdp, List.count_cons, hqp, hne]
        · simp [hdp, hne]
    · rw [if_neg hq, ih]
      by_cases hqp : q = pat
      · subst hqp
        simp [hq]
      · by_cases hdp : denyHit eng a o pat = true
        · simp [hdp, List.count_cons, hqp]
        · simp [hdp]

/-- The deny check contributes one violation per occurrence of a firing
pattern in the deny list, and none for a non-firing or non-compiling
pattern. -/
theorem contentDenyViolations_count (eng : RegexEngine) (rule : Rule) (cl : List Nat)
    (a o : String) (deny : List String) (pat : String) :
    (contentDenyViolations eng rule cl a o (some deny)).count
        (mkContentDenyViolation rule cl pat)
      = if denyHit eng a o pat then deny.count pat else 0 := by
  by_cases hdl : deny.length > 0
  · simp only [contentDenyViolations, if_pos hdl]
    exact contentDeny_filterMap_count eng rule cl a o deny pat
  · have : deny = [] := List.length_eq_zero.mp (by omega)
    subst this
    simp [contentDenyViolations]

/-- The forbid check never contributes a deny-part violation record. -/
theorem contentForbidViolations_count_deny (rule : Rule) (cl : List Nat)
    (a o : String) (forbidOpt : Option (List String))
    (r2 : Rule) (c2 : List Nat) (pat : String) :
    (contentForbidViolations rule cl a o forbidOpt).count
        (mkContentDenyViolation r2 c2 pat) = 0 := by
  apply List.count_eq_zero.mpr
  intro hmem
  cases forbidOpt with
  | none => exact absurd hmem (List.not_mem_nil _)
  | some forbid =>
    by_cases hfl : forbid.length > 0
    · simp only [contentForbidViolations, if_pos hfl] at hmem
      obtain ⟨g, _, hge⟩ := List.mem_map.mp hmem
      exact mkDeny_ne_mkForbid r2 c2 pat rule cl g hge.symm
    · simp only [contentForbidViolations, if_neg hfl] at hmem
      exact absurd hmem (List.not_mem_nil _)

/-- The require check never contributes a deny-part violation record. -/
theorem contentRequireViolations_count_deny (rule : Rule) (cl : List Nat)
    (o g : String) (rq : Option String) (r2 : Rule) (c2 : List Nat) (pat : String) :
    (contentRequireViolations rule cl o g rq).count
        (mkContentDenyViolation r2 c2 pat) = 0 := by
  apply List.count_eq_zero.mpr
  intro hmem
  simp only [contentRequireViolations] at hmem
  split at hmem
  · split at hmem
    · exact warning_ne_mkDeny rfl r2 c2 pat (List.mem_singleton.mp hmem).symm
    · exact absurd hmem (List.not_mem_nil _)
  · exact absurd hmem (List.not_mem_nil _)

/-- Under a well-behaved engine, the source's firing condition is exactly
the added-versus-original match-count comparison. -/
theorem denyHit_eq_counts (eng : RegexEngine) (hwf : WFDenyEngine eng)
    (a o pat : String) : denyHit eng a o pat = denyHitCounts eng a o pat := by
  unfold denyHit denyHitCounts
  cases hc : eng.compileDeny pat with
  | none => rfl
  | some f =>
    cases hfa : f a with
    | none => simp [optLen, hfa]
    | some ms =>
      cases hfo : f o with
      | none =>
        have hms : ¬(ms = []) := by
          intro he
          exact hwf pat f hc a (by rw [hfa, he])
        have hpos : 0 < ms.length := by
          cases ms with
          | nil => exact absurd rfl hms
          | cons x xs => simp
        simp [optLen, hfa, hfo, hpos]
      | some os => simp [optLen, hfa, hfo]

/-- The z-matching engine is well-behaved. -/
theorem subZEngine_wf : WFDenyEngine subZEngine := by
  intro p f hpf s
  by_cases hp : p = "z"
  · simp only [subZEngine, hp, if_pos] at hpf
    have hf := Option.some.inj hpf
    rw [← hf]
    intro heq
    dsimp at heq
    split at heq
    · exact Option.noConfusion heq
    · next hne =>
      have := Option.some.inj heq
      rw [this] at hne
      exact hne rfl
  · simp [subZEngine, hp] at hpf

/-- Counterexample to C7 as stated: with original z-x and generated
z-y-z, the pattern z matches the generated text twice and the original
once, yet the source compares against the added content (one match) and
emits no violation. -/
theorem c7_counterexample : ¬ claimC7Stmt := by
  intro h
  have hmem := h subZEngine subZEngine_wf "z\nx" "z\ny\nz" none none none none
    ["z"] "z" (by decide) (by decide)
  exact absurd hmem (by decide)

/-- C7 amended: each patternsDeny entry contributes one error-severity
content violation per occurrence in the deny list exactly when it
compiles and its match count in the added text (not the full generated
text) exceeds its match count in the original text; an entry that fails
to compile never fires and the remaining entries are still evaluated (no
exception escapes, the evaluator being a total function). -/
theorem c7_deny_amended (eng : RegexEngine) (hwf : WFDenyEngine eng)
    (original generated : String) (d rq : Option String) (fo : Option (List String))
    (al : Option (List String)) (denyList : List String) (pat : String) :
    (validateContentRule eng (Rule.content d rq fo (some ⟨al, some denyList⟩))
        original generated (computeDiff original generated)).count
      (mkContentDenyViolation (Rule.content d rq fo (some ⟨al, some denyList⟩))
        (getChangedLineNumbers (computeDiff original generated)) pat)
    = if denyHitCounts eng (addedContentOf (computeDiff original generated)) original pat
      then denyList.count pat else 0 := by
  simp only [validateContentRule]
  rw [List.count_append, List.count_append,
    contentForbidViolations_count_deny, contentDenyViolations_count,
    contentRequireViolations_count_deny,
    denyHit_eq_counts eng hwf]
  omega

/-- Witness for the amended C7: the z-engine satisfies the hypothesis and
the theorem evaluates at original x, generated z, deny list z, where the
condition fires and yields exactly one violation. -/
theorem c7_deny_amended_witness :
    WFDenyEngine subZEngine
    ∧ ((validateContentRule subZEngine (Rule.content none none none
            (some ⟨none, some ["z"]⟩)) "x" "z" (computeDiff "x" "z")).count
        (mkContentDenyViolation (Rule.content none none none (some ⟨none, some ["z"]⟩))
          (getChangedLineNumbers (computeDiff "x" "z")) "z")
      = if denyHitCounts subZEngine (addedContentOf (computeDiff "x" "z")) "x" "z"
        then (["z"] : List String).count "z" else 0)
    ∧ (if denyHitCounts subZEngine (addedContentOf (computeDiff "x" "z")) "x" "z"
        then (["z"] : List String).count "z" else 0) = 1 :=
  ⟨subZEngine_wf,
   c7_deny_amended subZEngine subZEngine_wf "x" "z" none none none none ["z"] "z",
   by decide⟩

/-! ## Claim C8 -/

/-- The unauthorized-dependency record is injective in the import name,
for a fixed rule, line list and allowed list. -/
theorem mkDepNotAllowedViolation_inj (rule : Rule) (cl : List Nat)
    (allowed : List String) {a b : String}
    (h : mkDepNotAllowedViolation rule cl a allowed
      = mkDepNotAllowedViolation rule cl b allowed) : a = b := by
  have hsh : ∀ x : String, depNotAllowedDetails x allowed
      = "The dependency \x22" ++ x
        ++ ("\x22 is not in the allowed list: " ++ jsJoin ", " allowed) := by
    intro x
    apply string_eq_of_data
    simp [depNotAllowedDetails, List.append_assoc]
  have hd := congrArg Violation.details h
  simp only [mkDepNotAllowedViolation] at hd
  have hd2 := Option.some.inj hd
  rw [hsh a, hsh b] at hd2
  exact affix_inj _ _ _ _ hd2

/-- An unauthorized-dependency record is never a forbidden-dependency
record (the description fields are different constants). -/
theorem mkDepNA_ne_mkDepF (r1 : Rule) (c1 : List Nat) (a : String)
    (al : List String) (r2 : Rule) (c2 : List Nat) (b : String) :
    ¬(mkDepNotAllowedViolation r1 c1 a al = mkDepForbiddenViolation r2 c2 b) := by
  intro h
  have hd := congrArg Violation.description h
  simp [mkDepNotAllowedViolation, mkDepForbiddenViolation] at hd

/-- C8: if evaluating a pair against the rule set holding a dependency
rule with forbidden moment yields the forbidden-moment violation, then
applying the approved exception moves moment into the rule's allowed list
(deduplicated) and out of its forbidden list, and re-evaluating the same
pair against the mutated rule set yields no dependency violation for
moment. -/
theorem c8_exception_roundtrip (eng : RegexEngine) (original generated : String)
    (_h : mkDepForbiddenViolation depMomentRule
        (getChangedLineNumbers (computeDiff original generated)) "moment"
      ∈ (validateAgainstRules eng original generated momentRules none none).violations) :
    addExceptions momentRules
        [mkDepForbiddenViolation depMomentRule
          (getChangedLineNumbers (computeDiff original generated)) "moment"]
      = (⟨[mutatedMomentRule], none⟩, true)
    ∧ ∀ v ∈ (validateAgainstRules eng original generated ⟨[mutatedMomentRule], none⟩
          none none).violations,
        ¬(v = mkDepNotAllowedViolation mutatedMomentRule
            (getChangedLineNumbers (computeDiff original generated)) "moment" ["moment"])
        ∧ ¬(v = mkDepForbiddenViolation mutatedMomentRule
            (getChangedLineNumbers (computeDiff original generated)) "moment") := by
  constructor
  · rfl
  · intro v hv
    rw [validateAgainstRules_violations] at hv
    simp only [List.flatMap_cons, List.flatMap_nil, List.append_nil,
      ruleViolations, validateDependenciesRule, mutatedMomentRule] at hv
    simp only [List.length_cons, List.length_nil, gt_iff_lt, Nat.lt_irrefl,
      Nat.zero_lt_succ, if_true, if_false, List.append_nil] at hv
    obtain ⟨imp, himp, hve⟩ := List.mem_map.mp hv
    constructor
    · intro he
      rw [← hve] at he
      have himp2 := (List.mem_filter.mp himp).2
      rw [mkDepNotAllowedViolation_inj mutatedMomentRule _ ["moment"] he] at himp2
      exact absurd himp2 (by decide)
    · intro he
      rw [← hve] at he
      exact mkDepNA_ne_mkDepF mutatedMomentRule _ imp ["moment"]
        mutatedMomentRule _ "moment" he

/-- Witness for C8: the spec's scenario (an empty original and a moment
importing line) satisfies the hypothesis and the round-trip
conclusion. -/
theorem c8_exception_roundtrip_witness :
    (mkDepForbiddenViolation depMomentRule
        (getChangedLineNumbers (computeDiff "" momentImportText)) "moment"
      ∈ (validateAgainstRules trivEngine "" momentImportText momentRules none
          none).violations)
    ∧ (addExceptions momentRules
          [mkDepForbiddenViolation depMomentRule
            (getChangedLineNumbers (computeDiff "" momentImportText)) "moment"]
        = (⟨[mutatedMomentRule], none⟩, true)
      ∧ ∀ v ∈ (validateAgainstRules trivEngine "" momentImportText
            ⟨[mutatedMomentRule], none⟩ none none).violations,
          ¬(v = mkDepNotAllowedViolation mutatedMomentRule
              (getChangedLineNumbers (computeDiff "" momentImportText)) "moment" ["moment"])
          ∧ ¬(v = mkDepForbiddenViolation mutatedMomentRule
              (getChangedLineNumbers (computeDiff "" momentImportText)) "moment")) :=
  ⟨by decide, c8_exception_roundtrip trivEngine "" momentImportText (by decide)⟩

/-! ## Claim C10 -/

/-- Every scope violation is stamped with the changed-line numbers. -/
theorem validateScopeRule_lineNumbers (eng : RegexEngine) (rule : Rule)
    (original generated : String) (diff : DiffResult) (fileName : Option String) :
    ∀ v ∈ validateScopeRule eng rule original generated diff fileName,
      v.lineNumbers = some (getChangedLineNumbers diff) := by
  intro v hv
  cases rule with
  | scope d p fs fns =>
    simp only [validateScopeRule] at hv
    rcases List.mem_append.mp hv with hv12 | hv3
    · rcases List.mem_append.mp hv12 with hv1 | hv2
      · repeat' split at hv1
        all_goals
          first
          | exact absurd hv1 (List.not_mem_nil _)
          | (have he := List.mem_singleton.mp hv1; subst he; rfl)
      · repeat' split at hv2
        all_goals
          first
          | exact absurd hv2 (List.not_mem_nil _)
          | (have he := List.mem_singleton.mp hv2; subst he; rfl)
    · repeat' split at hv3
      all_goals
        first
        | exact absurd hv3 (List.not_mem_nil _)
        | (have he := List.mem_singleton.mp hv3; subst he; rfl)
  | refactor a b => exact absurd hv (List.not_mem_nil _)
  | dependencies a b c => exact absurd hv (List.not_mem_nil _)
  | content a b c d => exact absurd hv (List.not_mem_nil _)
  | threshold a b c d => exact absurd hv (List.not_mem_nil _)

/-- Every violation of one refactor action is stamped with the supplied
changed-line numbers. -/
theorem refactorActionViolations_lineNumbers (rule : Rule) (original generated : String)
    (diff : DiffResult) (cl : List Nat) (action : String) :
    ∀ v ∈ refactorActionViolations rule original generated diff cl action,
      v.lineNumbers = some cl := by
  intro v hv
  simp only [refactorActionViolations] at hv
  repeat' split at hv
  all_goals
    first
    | exact absurd hv (List.not_mem_nil _)
    | (have he := List.mem_singleton.mp hv; subst he; rfl)

/-- Every refactor violation is stamped with the changed-line numbers. -/
theorem validateRefactorRule_lineNumbers (rule : Rule) (original generated : String)
    (diff : DiffResult) :
    ∀ v ∈ validateRefactorRule rule original generated diff,
      v.lineNumbers = some (getChangedLineNumbers diff) := by
  intro v hv
  cases rule with
  | refactor a forbid =>
    simp only [validateRefactorRule] at hv
    obtain ⟨action, _, hva⟩ := List.mem_flatMap.mp hv
    exact refactorActionViolations_lineNumbers _ _ _ _ _ _ v hva
  | scope a b c d => exact absurd hv (List.not_mem_nil _)
  | dependencies a b c => exact absurd hv (List.not_mem_nil _)
  | content a b c d => exact absurd hv (List.not_mem_nil _)
  | threshold a b c d => exact absurd hv (List.not_mem_nil _)

/-- Every dependency violation is stamped with the changed-line numbers. -/
theorem validateDependenciesRule_lineNumbers (rule : Rule) (original generated : String)
    (diff : DiffResult) :
    ∀ v ∈ validateDependenciesRule rule original generated diff,
      v.lineNumbers = some (getChangedLineNumbers diff) := by
  intro v hv
  cases rule with
  | dependencies a allowedOpt forbiddenOpt =>
    simp only [validateDependenciesRule] at hv
    rcases List.mem_append.mp hv with hva | hvf
    · repeat' split at hva
      all_goals first
      | exact absurd hva (List.not_mem_nil _)
      | (obtain ⟨imp, _, he⟩ := List.mem_map.mp hva; subst he; rfl)
    · repeat' split at hvf
      all_goals first
      | exact absurd hvf (List.not_mem_nil _)
      | (obtain ⟨imp, _, he⟩ := List.mem_map.mp hvf; subst he; rfl)
  | scope a b c d => exact absurd hv (List.not_mem_nil _)
  | refactor a b => exact absurd hv (List.not_mem_nil _)
  | content a b c d => exact absurd hv (List.not_mem_nil _)
  | threshold a b c d => exact absurd hv (List.not_mem_nil _)

/-- Every deny-check violation is stamped with the supplied line list. -/
theorem contentDenyViolations_lineNumbers (eng : RegexEngine) (rule : Rule)
    (cl : List Nat) (a o : String) (denyOpt : Option (List String)) :
    ∀ v ∈ contentDenyViolations eng rule cl a o denyOpt,
      v.lineNumbers = some cl := by
  intro v hv
  cases denyOpt with
  | none => exact absurd hv (List.not_mem_nil _)
  | some deny =>
    by_cases hdl : deny.length > 0
    · simp only [contentDenyViolations, if_pos hdl] at hv
      obtain ⟨pat, _, hpe⟩ := List.mem_filterMap.mp hv
      by_cases hdh : denyHit eng a o pat = true
      · rw [if_pos hdh] at hpe
        have he := Option.some.inj hpe
        subst he
        rfl
      · rw [if_neg hdh] at hpe
        exact Option.noConfusion hpe
    · simp only [contentDenyViolations, if_neg hdl] at hv
      exact absurd hv (List.not_mem_nil _)

/-- Every content violation is stamped with the changed-line numbers. -/
theorem validateContentRule_lineNumbers (eng : RegexEngine) (rule : Rule)
    (original generated : String) (diff : DiffResult) :
    ∀ v ∈ validateContentRule eng rule original generated diff,
      v.lineNumbers = some (getChangedLineNumbers diff) := by
  intro v hv
  cases rule with
  | content a rq fo pats =>
    simp only [validateContentRule] at hv
    rcases List.mem_append.mp hv with hv12 | hv3
    · rcases List.mem_append.mp hv12 with hv1 | hv2
      · simp only [contentForbidViolations] at hv1
        repeat' split at hv1
        all_goals first
        | exact absurd hv1 (List.not_mem_nil _)
        | (obtain ⟨f, _, he⟩ := List.mem_map.mp hv1; subst he; rfl)
      · exact contentDenyViolations_lineNumbers eng _ _ _ _ _ v hv2
    · simp only [contentRequireViolations] at hv3
      repeat' split at hv3
      all_goals first
      | exact absurd hv3 (List.not_mem_nil _)
      | (have he := List.mem_singleton.mp hv3; subst he; rfl)
  | scope a b c d => exact absurd hv (List.not_mem_nil _)
  | refactor a b => exact absurd hv (List.not_mem_nil _)
  | dependencies a b c => exact absurd hv (List.not_mem_nil _)
  | threshold a b c d => exact absurd hv (List.not_mem_nil _)

/-- Every threshold violation is stamped with the changed-line numbers,
except the max-files-changed one, which is stamped with line 1. -/
theorem validateThresholdRule_lineNumbers (rule : Rule) (diff : DiffResult)
    (filesChanged : Option Nat) :
    ∀ v ∈ validateThresholdRule rule diff filesChanged,
      v.lineNumbers = some (getChangedLineNumbers diff)
      ∨ (v.description = "Too many files changed" ∧ v.lineNumbers = some [1]) := by
  intro v hv
  cases rule with
  | threshold a maxLines maxFiles ra =>
    simp only [validateThresholdRule] at hv
    rcases List.mem_append.mp hv with hv1 | hv2
    · left
      repeat' split at hv1
      all_goals first
      | exact absurd hv1 (List.not_mem_nil _)
      | (have he := List.mem_singleton.mp hv1; subst he; rfl)
    · right
      repeat' split at hv2
      all_goals first
      | exact absurd hv2 (List.not_mem_nil _)
      | (have he := List.mem_singleton.mp hv2; subst he; exact ⟨rfl, rfl⟩)
  | scope a b c d => exact absurd hv (List.not_mem_nil _)
  | refactor a b => exact absurd hv (List.not_mem_nil _)
  | dependencies a b c => exact absurd hv (List.not_mem_nil _)
  | content a b c d => exact absurd hv (List.not_mem_nil _)

/-- The accumulator loop of getChangedLineNumbers is a flat map. -/
theorem gcln_foldl_eq_flatMap (l : List DiffChange) : ∀ acc : List Nat,
    l.foldl
      (fun acc ch =>
        match ch.type, ch.lineNumber with
        | ChangeType.added, some ln => acc ++ rangeFrom ln (jsCountOr1 ch.count)
        | _, _ => acc) acc
    = acc ++ l.flatMap
        (fun ch =>
          match ch.type, ch.lineNumber with
          | ChangeType.added, some ln => rangeFrom ln (jsCountOr1 ch.count)
          | _, _ => []) := by
  induction l with
  | nil => intro acc; simp
  | cons ch rest ih =>
    intro acc
    rw [List.foldl_cons, List.flatMap_cons]
    have hstep : (match ch.type, ch.lineNumber with
        | ChangeType.added, some ln => acc ++ rangeFrom ln (jsCountOr1 ch.count)
        | _, _ => acc)
      = acc ++ (match ch.type, ch.lineNumber with
        | ChangeType.added, some ln => rangeFrom ln (jsCountOr1 ch.count)
        | _, _ => []) := by
      cases ch.type <;> cases ch.lineNumber <;> simp
    rw [hstep, ih, List.append_assoc]

/-- The flat map over all changes equals the flat map over the added
changes only. -/
theorem gcln_flatMap_eq_filter (l : List DiffChange) :
    l.flatMap
      (fun ch =>
        match ch.type, ch.lineNumber with
        | ChangeType.added, some ln => rangeFrom ln (jsCountOr1 ch.count)
        | _, _ => [])
    = (l.filter (fun c => c.type = ChangeType.added)).flatMap
        (fun c =>
          match c.lineNumber with
          | some ln => rangeFrom ln (jsCountOr1 c.count)
          | none => []) := by
  induction l with
  | nil => rfl
  | cons ch rest ih =>
    rw [List.flatMap_cons]
    by_cases ha : ch.type = ChangeType.added
    · rw [List.filter_cons_of_pos (by simp [ha]), List.flatMap_cons, ih]
      cases hln : ch.lineNumber <;> simp [ha, hln]
    · rw [List.filter_cons_of_neg (by simpa using ha), ← ih]
      cases ht : ch.type <;> cases hln : ch.lineNumber <;> simp_all


/-- getChangedLineNumbers computes the spec-side changed-line numbers:
the new-file lines covered by the added groups, or [1] when there is no
added group. -/
theorem getChangedLineNumbers_eq_spec (diff : DiffResult) :
    getChangedLineNumbers diff = changedLinesSpec diff := by
  unfold getChangedLineNumbers changedLinesSpec
  rw [gcln_foldl_eq_flatMap, List.nil_append, gcln_flatMap_eq_filter]
  cases h : (diff.changes.filter (fun c => c.type = ChangeType.added)).flatMap
      (fun c =>
        match c.lineNumber with
        | some ln => rangeFrom ln (jsCountOr1 c.count)
        | none => []) with
  | nil => simp
  | cons x xs => simp

/-- The changed-line numbers list is never empty. -/
theorem getChangedLineNumbers_ne_nil (diff : DiffResult) :
    ¬(getChangedLineNumbers diff = []) := by
  unfold getChangedLineNumbers
  intro h
  by_cases hl : ((diff.changes.foldl
      (fun acc ch =>
        match ch.type, ch.lineNumber with
        | ChangeType.added, some ln => acc ++ rangeFrom ln (jsCountOr1 ch.count)
        | _, _ => acc) []).length > 0)
  · rw [if_pos hl] at h
    rw [h] at hl
    simp at hl
  · rw [if_neg hl] at h
    exact List.noConfusion h

/-- Counterexample to C10 as stated: a max-files-changed violation is
stamped with line 1 even though the diff has an added group covering
line 2. -/
theorem c10_counterexample : ¬ claimC10Stmt := by
  intro h
  have hv := h trivEngine "a\n" "a\nb" c10CexRules none (some 1)
    ⟨Rule.threshold none none (some 0) false, "threshold", "Too many files changed",
      Severity.error, some "Changed 1 files, maximum allowed is 0", some [1]⟩
    (by decide)
  exact absurd hv (by decide)

/-- C10 amended: every violation carries a present, non-empty lineNumbers
list; it is the changed-line list (the new-file line numbers covered by
the added diff groups, or exactly [1] when there is no added group),
except that the max-files-changed threshold violation always carries
[1]. -/
theorem c10_lineNumbers_amended (eng : RegexEngine) (original generated : String)
    (rules : RulesConfig) (fileName : Option String) (filesChanged : Option Nat) :
    (∀ v ∈ (validateAgainstRules eng original generated rules fileName
        filesChanged).violations,
      v.lineNumbers = some (getChangedLineNumbers (computeDiff original generated))
      ∨ (v.description = "Too many files changed" ∧ v.lineNumbers = some [1]))
    ∧ getChangedLineNumbers (computeDiff original generated)
        = changedLinesSpec (computeDiff original generated)
    ∧ ¬(getChangedLineNumbers (computeDiff original generated) = []) := by
  refine ⟨?_, getChangedLineNumbers_eq_spec _, getChangedLineNumbers_ne_nil _⟩
  intro v hv
  rw [validateAgainstRules_violations] at hv
  obtain ⟨r, _, hvr⟩ := List.mem_flatMap.mp hv
  cases r with
  | scope a b c d =>
    simp only [ruleViolations] at hvr
    exact Or.inl (validateScopeRule_lineNumbers eng _ _ _ _ _ v hvr)
  | refactor a b =>
    simp only [ruleViolations] at hvr
    exact Or.inl (validateRefactorRule_lineNumbers _ _ _ _ v hvr)
  | dependencies a b c =>
    simp only [ruleViolations] at hvr
    exact Or.inl (validateDependenciesRule_lineNumbers _ _ _ _ v hvr)
  | content a b c d =>
    simp only [ruleViolations] at hvr
    exact Or.inl (validateContentRule_lineNumbers eng _ _ _ _ v hvr)
  | threshold a b c d =>
    simp only [ruleViolations] at hvr
    exact validateThresholdRule_lineNumbers _ _ _ v hvr

end Guardrail
